import Mathlib

/-!
Verification of the `xblock-runtime-lib` repository against its
natural-language specification.

The Python sources are shallowly embedded below.  Pure functions become
Lean functions over `String` / `List Char`; Django/stateful collaborators
(the HMAC implementation, Django's `reverse`, the per-thread cache, the
field-data dictionaries) become explicit function parameters or explicit
state passing.  Fallible Python code (functions that `raise`) returns
`Except`.  Each definition cites the source file and lines it embeds.
-/

/- ### Character and list helpers (shared by several embeddings) -/

/-- The single-quote character (code 39), written by code point to keep
string handling uniform. -/
def squoteChar : Char := Char.ofNat 39

/-- The double-quote character (code 34). -/
def dquoteChar : Char := Char.ofNat 34

/-- The backslash character (code 92). -/
def backslashChar : Char := Char.ofNat 92

/-- The newline character (code 10); Python's `re` dot does not match it. -/
def newlineChar : Char := Char.ofNat 10

/-- Python's substring test `needle in hay` over lists of characters. -/
def listHasInfix (needle : List Char) : List Char → Bool
  | [] => needle.isEmpty
  | c :: t => needle.isPrefixOf (c :: t) || listHasInfix needle t

/-- Python's substring test `needle in hay` for `String`s. -/
def strHasInfix (needle hay : String) : Bool :=
  listHasInfix needle.toList hay.toList

/-- Python's `str.endswith`, over character lists. -/
def strEndsWith (s suf : String) : Bool :=
  suf.toList.isSuffixOf s.toList

/-- Strip a required literal from the front of the input; `none` when the
literal is not there.  Used to embed literal parts of regular expressions. -/
def stripPre (pre cs : List Char) : Option (List Char) :=
  if pre.isPrefixOf cs then some (cs.drop pre.length) else none

/-- Embeds a greedy `p+` regex atom: the maximal non-empty run of characters
satisfying `p`, together with the remainder; `none` when the run is empty. -/
def splitRun (p : Char → Bool) (cs : List Char) : Option (List Char × List Char) :=
  if (cs.takeWhile p).isEmpty then none else some (cs.takeWhile p, cs.dropWhile p)

/-- Python's `str.split(sep)` for a one-character separator: splits on every
occurrence, keeping empty parts (`"".split("/") == [""]`,
`"a/".split("/") == ["a", ""]`). -/
def pySplit (sep : Char) : List Char → List (List Char)
  | [] => [[]]
  | c :: cs =>
    if c = sep then [] :: pySplit sep cs
    else
      match pySplit sep cs with
      | t :: ts => (c :: t) :: ts
      | [] => [[c]]

/- ### `re.sub` as a fuelled left-to-right scan

`re.sub(pattern, f, s)` scans `s` left to right; at each position it tries
the pattern, emits `f(match)` and resumes after the match when it matches,
and otherwise copies one character.  `step` combines the pattern and the
replacement function: it returns the replacement text and the remainder
after the match.  Every pattern embedded below consumes at least one
character, so fuel `cs.length` always suffices. -/

def reSubScan (step : List Char → Option (List Char × List Char)) :
    Nat → List Char → List Char
  | 0, cs => cs
  | _ + 1, [] => []
  | fuel + 1, c :: cs =>
    match step (c :: cs) with
    | some (rep, rest) => rep ++ reSubScan step fuel rest
    | none => c :: reSubScan step fuel cs

/-- `re.sub` over strings, with fuel equal to the input length. -/
def reSub (step : List Char → Option (List Char × List Char)) (s : String) : String :=
  ⟨reSubScan step s.toList.length s.toList⟩

/-- A `step` function is *shrinking* when every match leaves a strictly
shorter remainder; all the regexes embedded below are shrinking. -/
def ShrinkingStep (step : List Char → Option (List Char × List Char)) : Prop :=
  ∀ cs rep rest, step cs = some (rep, rest) → rest.length < cs.length

/- ### Source: `src/xblock_runtime_lib/runtime/olx_parsing.py` -/

/-- An etree XML node, restricted to what `parse_xblock_include` inspects:
its tag and its attribute mapping (`node.attrib`). -/
structure XmlNode where
  tag : String
  attrib : List (String × String)

/-- `node.attrib[k]` / `node.attrib.get(k, None)`: first binding of `k`. -/
def XmlNode.attribGet (node : XmlNode) (k : String) : Option String :=
  (node.attrib.find? (fun kv => kv.1 = k)).map (fun kv => kv.2)

/-- `BundleFormatException` (olx_parsing.py lines 12-16). -/
inductive BundleFormatException where
  | mk (msg : String)
deriving DecidableEq, Repr

/-- The `XBlockInclude` namedtuple (olx_parsing.py line 19). -/
structure XBlockInclude where
  link_id : Option String
  block_type : String
  definition_id : String
  usage_hint : Option String
deriving DecidableEq, Repr

/-- Embeds `parse_xblock_include` (olx_parsing.py lines 22-45).
Python's `block_type, definition_id = definition_path.split("/")` succeeds
exactly when the split has two parts and raises `ValueError` otherwise,
which the source converts to `BundleFormatException`. -/
def parse_xblock_include (include_node : XmlNode) :
    Except BundleFormatException XBlockInclude :=
  if include_node.tag ≠ "xblock-include" then
    .error (.mk ("Expected an <xblock-include /> XML node, but got <" ++
      include_node.tag ++ ">"))
  else
    match include_node.attribGet "definition" with
    | none => .error (.mk "<xblock-include> is missing the required definition=\"...\" attribute")
    | some definition_path =>
      let usage_hint := include_node.attribGet "usage"
      let link_id := include_node.attribGet "source"
      match pySplit '/' definition_path.toList with
      | [bt, di] =>
        .ok { link_id := link_id, block_type := bt.asString,
              definition_id := di.asString, usage_hint := usage_hint }
      | _ => .error (.mk ("Invalid definition attribute: " ++ definition_path))

/- ### Source: `src/xblock_runtime_lib/utils.py` and
`src/xblock_runtime_lib/api.py` (secure handler URLs) -/

/-- A non-null Django user as `get_handler_url` distinguishes them:
either authenticated (`user.is_authenticated`, identified by
`user.username`) or anonymous (`user.is_anonymous`, identified by the value
`get_xblock_id_for_anonymous_user(user)` yields for them).  Python's `None`
is modelled as `Option.none` one level up. -/
inductive DjangoUser where
  | authenticated (username : String)
  | anonymous (xblockAnonId : String)
deriving DecidableEq, Repr

/-- The Django/stdlib collaborators of the secure-URL code, passed
explicitly: the frozen clock, the `SECRET_KEY` setting, the hex digest of
`hmac.new(key, msg, 'blake2b')`, the site root URL from the app config, and
Django's `reverse` for the `api:v1:xblocks-secure-handler` route applied to
the kwargs `pk`, `username`, `secure_key`, `handler_name`. -/
structure HandlerUrlEnv where
  nowSeconds : Nat
  secretKey : String
  hmacBlake2bHexdigest : String → String → String
  siteRootUrl : String
  reverseSecureHandler : (pk username secureKey handlerName : String) → String

/-- Embeds `get_secure_hash_for_xblock_handler` (utils.py lines 25-42):
`TOKEN_PERIOD = 24*60*60*2`; the time token is `floor(time.time() /
TOKEN_PERIOD) + TOKEN_PERIOD * time_idx`; the check string is
`str(time_token) + ':' + username + ':' + block_key_str`; the result is
the first 20 characters of the keyed blake2b hex digest. -/
def get_secure_hash_for_xblock_handler (env : HandlerUrlEnv)
    (username block_key_str : String) (time_idx : Int) : String :=
  let TOKEN_PERIOD : Nat := 24 * 60 * 60 * 2
  let time_token : Int := (env.nowSeconds / TOKEN_PERIOD : Nat)
  let time_token : Int := time_token + TOKEN_PERIOD * time_idx
  let check_string := toString time_token ++ ":" ++ username ++ ":" ++ block_key_str
  let secure_key := env.hmacBlake2bHexdigest env.secretKey check_string
  secure_key.take 20

/-- The characters `urllib.parse.quote_plus` never escapes
(`ALWAYS_SAFE`): ASCII letters, digits, and `_.-~`. -/
def quotePlusSafe (n : Nat) : Bool :=
  (65 ≤ n && n ≤ 90) || (97 ≤ n && n ≤ 122) || (48 ≤ n && n ≤ 57) ||
    n = 95 || n = 46 || n = 45 || n = 126

/-- One upper-case hex digit. -/
def hexDigit (n : Nat) : Char :=
  if n < 10 then Char.ofNat (48 + n) else Char.ofNat (55 + n)

/-- `urllib.parse.quote_plus` on one UTF-8 byte: safe bytes pass through,
a space becomes `+`, everything else becomes `%XX`. -/
def quotePlusByte (n : Nat) : List Char :=
  if quotePlusSafe n then [Char.ofNat n]
  else if n = 32 then ['+']
  else ['%', hexDigit (n / 16), hexDigit (n % 16)]

/-- `urllib.parse.quote_plus` over the UTF-8 bytes of a string. -/
def quotePlus (s : String) : String :=
  ⟨(s.toUTF8.toList.map (fun b => quotePlusByte b.toNat)).flatten⟩

/-- `urllib.parse.urlencode` on a dict of string pairs (the `extra_params`
of `get_handler_url`): `k=v` pairs joined with `&`. -/
def urlencode : List (String × String) → String
  | [] => ""
  | [kv] => quotePlus kv.1 ++ "=" ++ quotePlus kv.2
  | kv :: rest => quotePlus kv.1 ++ "=" ++ quotePlus kv.2 ++ "&" ++ urlencode rest

/-- Python exceptions raised by the embedded API functions. -/
inductive PyError where
  | typeError (msg : String)
  | valueError (msg : String)
  | permissionDenied
deriving DecidableEq, Repr

/-- Embeds `get_handler_url` (api.py lines 120-165).  `extra_params=None`
and an empty dict are both falsy, so both yield an empty query string.
The `else: raise ValueError` arm of the source is unreachable here because
a non-null Django user is either authenticated or anonymous. -/
def get_handler_url (env : HandlerUrlEnv) (usage_key handler_name : String)
    (user : Option DjangoUser) (extra_params : Option (List (String × String))) :
    Except PyError String :=
  let usage_key_str := usage_key
  let site_root_url := env.siteRootUrl
  match user with
  | none => .error (.typeError "Cannot get handler URLs without specifying a specific user ID.")
  | some u =>
    let user_id := match u with
      | .authenticated username => username
      | .anonymous xblockAnonId => xblockAnonId
    let secure_token := get_secure_hash_for_xblock_handler env user_id usage_key_str 0
    let path := env.reverseSecureHandler usage_key_str user_id secure_token handler_name
    let qstring := match extra_params with
      | none => ""
      | some ps => if ps.isEmpty then "" else urlencode ps
    let qstring := if qstring ≠ "" then "?" ++ qstring else qstring
    .ok (site_root_url ++ path ++ qstring)

/-- The user id `get_handler_url` derives: `user.username` for an
authenticated user, the XBlock anonymous-user id for an anonymous one. -/
def DjangoUser.handlerUserId : DjangoUser → String
  | .authenticated username => username
  | .anonymous xblockAnonId => xblockAnonId

/- ### Source: `src/xblock_runtime_lib/runtime/static_replace.py` -/

/-- Embeds the `(?P<quote>\\?['"])` group of `_url_replace_regex`
(static_replace.py lines 13-25): an optional literal backslash followed by a
single or double quote.  The greedy optional backslash is deterministic
here: when the input starts with a backslash that is not followed by a
quote character, the empty alternative also fails, because a backslash is
not a quote character. -/
def matchQuote : List Char → Option (List Char × List Char)
  | [] => none
  | [c₁] =>
    if c₁ = squoteChar ∨ c₁ = dquoteChar then some ([c₁], []) else none
  | c₁ :: c₂ :: t =>
    if c₁ = backslashChar ∧ (c₂ = squoteChar ∨ c₂ = dquoteChar) then
      some ([c₁, c₂], t)
    else if c₁ = squoteChar ∨ c₁ = dquoteChar then some ([c₁], c₂ :: t)
    else none

/-- Embeds `(?P<rest>.*?)(?P=quote)`: the lazy dot-star takes the shortest
run of non-newline characters after which the opening quote recurs; `none`
when no closing quote occurs before a newline or the end of the input. -/
def findRest (quote : List Char) : List Char → Option (List Char × List Char)
  | [] => if quote.isEmpty then some ([], []) else none
  | c :: t =>
    if quote.isPrefixOf (c :: t) then some ([], (c :: t).drop quote.length)
    else if c = newlineChar then none
    else (findRest quote t).map (fun pr => (c :: pr.1, pr.2))

/-- One branch of the prefix alternation
`(?:{static_url}|/static/)(?!{data_dir})` with `data_dir = None`
(static_replace.py lines 48-52): the literal prefix, then the negative
lookahead `(?!None)` — `str.format` renders the `None` default for
`data_dir` into the pattern, so a path whose remainder starts with the
four characters `None` does not match — then the lazy rest up to the
closing quote. -/
def tryStaticTail (lit quote cs : List Char) :
    Option (List Char × List Char × List Char) :=
  match stripPre lit cs with
  | none => none
  | some cs₁ =>
    if ("None".toList).isPrefixOf cs₁ then none
    else (findRest quote cs₁).map (fun pr => (lit, pr.1, pr.2))

/-- The `/static/` alternative of the prefix alternation, as a named
constant so that proofs can refer to it syntactically. -/
def staticSlashLit : List Char := "/static/".toList

/-- The full `_url_replace_regex` attempted at the head of `cs`: quote,
then the `STATIC_URL` alternative first and the `/static/` alternative as
backtracking fallback, yielding the `quote`, `prefix` and `rest` groups
and the remainder of the input after the match. -/
def matchStaticAt (staticUrl cs : List Char) :
    Option (List Char × List Char × List Char × List Char) :=
  match matchQuote cs with
  | none => none
  | some (q, cs₁) =>
    match tryStaticTail staticUrl q cs₁ with
    | some (pre, r, rem) => some (q, pre, r, rem)
    | none =>
      match tryStaticTail staticSlashLit q cs₁ with
      | some (pre, r, rem) => some (q, pre, r, rem)
      | none => none

/-- The `re.sub` step of `process_static_urls`: try `_url_replace_regex`
at the head of the input and, on a match, emit
`wrap_part_extraction`'s forwarding of `group(0)`, `prefix`, `quote` and
`rest` to `replacement_function` (static_replace.py lines 36-46). -/
def staticStep (staticUrl : String)
    (replacement_function : String → String → String → String → String)
    (cs : List Char) : Option (List Char × List Char) :=
  (matchStaticAt staticUrl.toList cs).map (fun m =>
    ((replacement_function (m.1 ++ m.2.1 ++ m.2.2.1 ++ m.1).asString
      m.2.1.asString m.1.asString m.2.2.1.asString).toList, m.2.2.2))

/-- Embeds `process_static_urls` (static_replace.py lines 28-55) for the
`data_dir=None` call made by `transform_static_paths_to_urls`:
`re.sub(_url_replace_regex(...), wrap_part_extraction, text)`. -/
def process_static_urls (staticUrl : String)
    (replacement_function : String → String → String → String → String)
    (text : String) : String :=
  reSub (staticStep staticUrl replacement_function) text

/- ### Source: `src/xblock_runtime_lib/runtime/runtime.py` -/

/-- Embeds the inner `replace_static_url` of
`XBlockRuntime.transform_static_paths_to_urls` (runtime.py lines 213-223).
`_lookup_asset_url` is a parameter (`lookup`); Python's
`lookup(...) or original_url` also falls back when the looked-up URL is
the empty string, because `or` tests truthiness. -/
def replace_static_url (lookup : String → Option String)
    (_original prefix_group quote rest : String) : String :=
  let original_url := prefix_group ++ rest
  let new_url :=
    if strEndsWith rest "?raw" then original_url
    else
      match lookup rest with
      | some u => if u = "" then original_url else u
      | none => original_url
  quote ++ new_url ++ quote

/-- Embeds `XBlockRuntime.transform_static_paths_to_urls`
(runtime.py lines 197-225). -/
def transform_static_paths_to_urls (staticUrl : String)
    (lookup : String → Option String) (html_str : String) : String :=
  process_static_urls staticUrl (replace_static_url lookup) html_str

/-- The XBlock field scopes that `SplitFieldData` is keyed on in
`_init_field_data_for_block`. -/
inductive FieldScope where
  | content | settings | parent | children
  | user_state_summary | user_state | user_info | preferences
deriving DecidableEq, Repr

/-- The field-data stores a scope can be routed to.  `authoredDataStore`
is `system.authored_data_store` (the content-store-backed
`BlockstoreFieldData`), `childrenDataStore` is
`system.children_data_store`, and `studentDataStore` stands for a
relational-database-backed student data store — the spec mentions one, the
source does not construct one. -/
inductive FieldDataStore where
  | authoredDataStore
  | childrenDataStore
  | studentDataStore
deriving DecidableEq, Repr

/-- Embeds `XBlockRuntime._init_field_data_for_block` (runtime.py lines
143-158): the `SplitFieldData` routing table.  In the source
`student_data_store = None` (marked `TODO: Implement for read/write
XBlocks`), so the four user scopes are mapped to `None`. -/
def init_field_data_for_block : FieldScope → Option FieldDataStore
  | .content => some .authoredDataStore
  | .settings => some .authoredDataStore
  | .parent => some .authoredDataStore
  | .children => some .childrenDataStore
  | .user_state_summary => none
  | .user_state => none
  | .user_info => none
  | .preferences => none

/-- Modelled from the spec (claim C5's reading): the same routing table
but with the user-state scopes routed to a relational-database-backed
student data store.  Kept for comparison with
`init_field_data_for_block`, which is the source's table. -/
def spec_field_data_routing : FieldScope → Option FieldDataStore
  | .content => some .authoredDataStore
  | .settings => some .authoredDataStore
  | .parent => some .authoredDataStore
  | .children => some .childrenDataStore
  | .user_state_summary => some .studentDataStore
  | .user_state => some .studentDataStore
  | .user_info => some .studentDataStore
  | .preferences => some .studentDataStore

/-- Association lookup, embedding `dict` membership/indexing keyed by a
block's `scope_ids`. -/
def lookupAssoc {K V : Type} [DecidableEq K] (l : List (K × V)) (k : K) : Option V :=
  (l.find? (fun kv => kv.1 = k)).map (fun kv => kv.2)

/-- The mutable `self.block_field_datas` dict of an `XBlockRuntime`
(runtime.py line 72), as explicit state.  A `none` value is the `None`
the source caches after a failed initialization. -/
structure ServiceState (K FD : Type) where
  block_field_datas : List (K × Option FD)

/-- Embeds the `field-data` branch of `XBlockRuntime.service` (runtime.py
lines 119-133): on a cache miss it initializes the field data
(`_init_field_data_for_block`, here the parameter `init`, which may
raise); on success the result is cached and returned, on failure `None`
is cached ("Don't try again pointlessly every time another field is
accessed") and the exception is re-raised; on a cache hit the cached
value is returned as-is. -/
def service_field_data {K FD E : Type} [DecidableEq K]
    (init : K → Except E FD) (st : ServiceState K FD) (scope_ids : K) :
    Except E (Option FD) × ServiceState K FD :=
  match lookupAssoc st.block_field_datas scope_ids with
  | some v => (.ok v, st)
  | none =>
    match init scope_ids with
    | .ok fd => (.ok (some fd), ⟨(scope_ids, some fd) :: st.block_field_datas⟩)
    | .error e => (.error e, ⟨(scope_ids, none) :: st.block_field_datas⟩)

/-- A web fragment, restricted to what `XBlockRuntime.render` inspects:
its HTML content and its resources as (kind, data) pairs. -/
structure WebFragment where
  content : String
  resources : List (String × String)
deriving DecidableEq, Repr

/-- Embeds `wrap_fragment` (xblock_utils.py lines 12-19): a new fragment
with the new content and the old fragment's resources. -/
def wrap_fragment (fragment : WebFragment) (new_content : String) : WebFragment :=
  { content := new_content, resources := fragment.resources }

/-- `self.user is None or self.user.is_anonymous` (runtime.py line 166). -/
def userIsNoneOrAnonymous : Option DjangoUser → Bool
  | none => true
  | some (.anonymous _) => true
  | some (.authenticated _) => false

/-- The collaborators of `XBlockRuntime.render` other than the permission
gate: the base-class `Runtime.render` (which invokes the block's view),
the site root URL, and the `STATIC_URL` and `_lookup_asset_url` needed by
`transform_static_paths_to_urls`. -/
structure RenderEnv where
  superRender : String → WebFragment
  siteRootUrl : String
  staticUrl : String
  lookupAsset : String → Option String

/-- Embeds `XBlockRuntime.render` (runtime.py lines 160-195): the
permission gate, then the base render, the relative-resource-URL fix-up,
and the static-path wrap.  The base render is a parameter, so a result
that is independent of it shows the block's view was never invoked. -/
def XBlockRuntime_render (env : RenderEnv) (user : Option DjangoUser)
    (view_name : String) : Except PyError WebFragment :=
  if userIsNoneOrAnonymous user ∧ view_name ≠ "public_view" then
    .error .permissionDenied
  else
    let fragment := env.superRender view_name
    let isRelativeUrl := fun (r : String × String) =>
      (r.1 == "url") && r.2.startsWith "/"
    let needs_fix := fragment.resources.any isRelativeUrl
    let fragment :=
      if needs_fix then
        WebFragment.mk fragment.content (fragment.resources.map
          (fun r => if isRelativeUrl r then (r.1, env.siteRootUrl ++ r.2) else r))
      else fragment
    .ok (wrap_fragment fragment
      (transform_static_paths_to_urls env.staticUrl env.lookupAsset fragment.content))

/- ### Source: `src/xblock_runtime_lib/runtime/blockstore_runtime.py` -/

/-- Embeds `REGEX_BROWSER_URL = re.compile(r'http://edx.devstack.(studio|lms):')`
(blockstore_runtime.py line 177) attempted at the head of the input: the
unescaped dots are regex wildcards matching any non-newline character, and
the `studio`/`lms` alternatives are mutually exclusive on their first
character, so no backtracking arises.  Returns the remainder after a
match. -/
def matchBrowserUrlAt (cs : List Char) : Option (List Char) :=
  match stripPre "http://edx".toList cs with
  | none => none
  | some cs₁ =>
    match cs₁ with
    | [] => none
    | c :: cs₂ =>
      if c = newlineChar then none
      else
        match stripPre "devstack".toList cs₂ with
        | none => none
        | some cs₃ =>
          match cs₃ with
          | [] => none
          | c₂ :: cs₄ =>
            if c₂ = newlineChar then none
            else
              match stripPre "studio".toList cs₄ with
              | some cs₅ => stripPre [':'] cs₅
              | none =>
                match stripPre "lms".toList cs₄ with
                | some cs₅ => stripPre [':'] cs₅
                | none => none

/-- Embeds `force_browser_url` (blockstore_runtime.py lines 180-193):
`re.sub(REGEX_BROWSER_URL, 'http://localhost:', url)`. -/
def force_browser_url (url : String) : String :=
  reSub (fun cs => (matchBrowserUrlAt cs).map
    (fun rest => ("http://localhost:".toList, rest))) url

/-- The Django collaborators of
`BlockstoreXBlockRuntime._lookup_asset_url`: `reverse` for the
`api:v1:xblocks-static-asset` route on kwargs `pk` and `filename`, and
`current_request.build_absolute_uri`. -/
structure AssetUrlEnv where
  reverseStaticAsset : String → String → String
  buildAbsoluteUri : String → String

/-- Embeds `BlockstoreXBlockRuntime._lookup_asset_url` (blockstore_runtime.py
lines 153-174): a path containing `..` is rejected as illegal before any
URL is built; otherwise the asset path is reversed, made absolute, and
passed through `force_browser_url`. -/
def blockstore_lookup_asset_url (env : AssetUrlEnv)
    (usage_id asset_path : String) : Option String :=
  if strHasInfix ".." asset_path then none
  else
    let asset_path₂ := env.reverseStaticAsset usage_id asset_path
    let asset_url := env.buildAbsoluteUri asset_path₂
    some (force_browser_url asset_url)

/-- The definition keys `BlockstoreXBlockRuntime.get_block` distinguishes:
a `BundleDefinitionLocator` (with its OLX path and optional draft name) or
any other opaque key. -/
inductive OpaqueDefKey where
  | bundle (bundle_uuid olx_path : String) (draft_name : Option String)
  | nonBundle (key : String)
deriving DecidableEq, Repr

/-- The exceptions `get_block` can raise. -/
inductive GetBlockError where
  | valueError (msg : String)
  | typeError (msg : String)
  | noSuchUsage (usage : String)
  | unsupportedBlockType
deriving DecidableEq, Repr

/-- The collaborators of `get_block`: the id reader
(`get_definition_id`, `get_block_type`, the latter raising
`NoSuchDefinition` modelled as `Except Unit`), the
`XBLOCK_RUNTIME_SUPPORTED_BLOCK_TYPES` setting, the authored data store's
definition cache, and whether the block class defines
`parse_xml_new_runtime`. -/
structure GetBlockEnv where
  get_definition_id : String → Option OpaqueDefKey
  get_block_type : OpaqueDefKey → Except Unit String
  supported_block_types : List String
  has_cached_definition : String → Bool
  has_parse_xml_new_runtime : String → Bool

/-- The `ScopeIds(self.user_id, block_type, def_id, usage_id)` tuple
(blockstore_runtime.py line 63). -/
structure ScopeIdsModel where
  user_id : Option String
  block_type : String
  def_id : OpaqueDefKey
  usage_id : String
deriving DecidableEq, Repr

/-- How `get_block` produced its XBlock: `construct_xblock` from the
cached definition, or parsing the OLX file (via `parse_xml_new_runtime`
when the block class defines it, else `parse_xml`). -/
inductive GetBlockResult where
  | constructedFromCachedDefinition (keys : ScopeIdsModel)
  | parsedFromOlx (keys : ScopeIdsModel) (via_parse_xml_new_runtime : Bool)
deriving DecidableEq, Repr

/-- Embeds `BlockstoreXBlockRuntime.get_block` (blockstore_runtime.py
lines 43-92): the error cascade, then construction from the cached
definition or by parsing the OLX file. -/
def blockstore_get_block (env : GetBlockEnv) (user_id : Option String)
    (usage_id : String) : Except GetBlockError GetBlockResult :=
  match env.get_definition_id usage_id with
  | none => .error (.valueError ("Definition not found for usage " ++ usage_id))
  | some def_id =>
    match def_id with
    | .nonBundle _ =>
      .error (.typeError "This runtime can only load blocks stored in Blockstore bundles.")
    | .bundle bu op dn =>
      match env.get_block_type (.bundle bu op dn) with
      | .error _ => .error (.noSuchUsage usage_id)
      | .ok block_type =>
        if block_type ∉ env.supported_block_types then
          .error .unsupportedBlockType
        else
          let keys : ScopeIdsModel := ⟨user_id, block_type, .bundle bu op dn, usage_id⟩
          if env.has_cached_definition usage_id then
            .ok (.constructedFromCachedDefinition keys)
          else
            .ok (.parsedFromOlx keys (env.has_parse_xml_new_runtime block_type))

/-- The function-attribute cache of `get_runtime_system` (api.py lines
50-58), as explicit state: `setattr(get_runtime_system, f'_system_{tid}', ...)`
becomes an association from thread identifiers to `XBlockRuntimeSystem`
instances.  Python object identity is modelled by a fresh allocation id
per constructed instance (`nextId`). -/
structure RuntimeSystemCache where
  cache : List (Nat × Nat)
  nextId : Nat

/-- Embeds `get_runtime_system` (api.py lines 33-58): look up the
attribute named after `threading.get_ident()`; when absent, construct a
new `XBlockRuntimeSystem` and store it under that name; return the stored
instance. -/
def get_runtime_system (tid : Nat) (s : RuntimeSystemCache) :
    Nat × RuntimeSystemCache :=
  match lookupAssoc s.cache tid with
  | some sysId => (sysId, s)
  | none => (s.nextId, ⟨(tid, s.nextId) :: s.cache, s.nextId + 1⟩)

/-- Well-formedness of the cache state: every stored instance id was
allocated (is below `nextId`) and distinct threads hold distinct
instances. -/
def RuntimeSystemCacheInv (s : RuntimeSystemCache) : Prop :=
  (∀ p ∈ s.cache, p.2 < s.nextId) ∧
  (∀ p ∈ s.cache, ∀ q ∈ s.cache, p.1 ≠ q.1 → p.2 ≠ q.2)

/- ### Source: `src/xblock_runtime_lib/utils.py` lines 60-92 -/

/-- Python's regex `\w` restricted to ASCII word characters (the ids in
the rewritten handler URLs are ASCII). -/
def isWordChar (c : Char) : Bool := c.isAlphanum || c = '_'

/-- The `[^/"']` class of the `block_id` group. -/
def isBlockIdChar (c : Char) : Bool :=
  !(c = '/' || c = dquoteChar || c = squoteChar)

/-- The `[\w\-]` class of the `handler_name` group. -/
def isHandlerNameChar (c : Char) : Bool := isWordChar c || c = '-' 

/-- The `handler_url_pattern` regex of
`rewrite_blockstore_runtime_handler_urls` (utils.py lines 69-76) attempted
at the head of the input:

`{LMS_ROOT_PUBLIC}/api/xblock/v2/xblocks/(?P<block_id>[^/"']+)/handler/(?P<user_id>\w+)-(?P<secure_token>\w+)/(?P<handler_name>[\w\-]+)`

Returns the `block_id` and `handler_name` groups and the remainder.  The
greedy `+` runs need no backtracking: each run's maximal extent is
followed by a required character its own class excludes, so any shorter
extent fails immediately. -/
def matchHandlerUrlAt (lmsRoot cs : List Char) :
    Option (List Char × List Char × List Char) :=
  match stripPre (lmsRoot ++ "/api/xblock/v2/xblocks/".toList) cs with
  | none => none
  | some cs₁ =>
    match splitRun isBlockIdChar cs₁ with
    | none => none
    | some (block_id, cs₂) =>
      match stripPre "/handler/".toList cs₂ with
      | none => none
      | some cs₃ =>
        match splitRun isWordChar cs₃ with
        | none => none
        | some (_user_id, cs₄) =>
          match stripPre ['-'] cs₄ with
          | none => none
          | some cs₅ =>
            match splitRun isWordChar cs₅ with
            | none => none
            | some (_secure_token, cs₆) =>
              match stripPre ['/'] cs₆ with
              | none => none
              | some cs₇ =>
                match splitRun isHandlerNameChar cs₇ with
                | none => none
                | some (handler_name, cs₈) => some (block_id, handler_name, cs₈)

/-- The failed trailing `assert` of
`rewrite_blockstore_runtime_handler_urls` (utils.py line 90). -/
inductive AssertionError where
  | mk
deriving DecidableEq, Repr

/-- The `re.sub` step of `rewrite_blockstore_runtime_handler_urls`: try
`handler_url_pattern` at the head of the input and, on a match, emit the
secure handler URL built from the match's `block_id` and `handler_name`
groups (utils.py lines 78-87). -/
def handlerUrlStep (lmsRoot : List Char)
    (secure_url : String → String → String) (cs : List Char) :
    Option (List Char × List Char) :=
  (matchHandlerUrlAt lmsRoot cs).map
    (fun m => ((secure_url m.1.asString m.2.1.asString).toList, m.2.2))

/-- Embeds `rewrite_blockstore_runtime_handler_urls` (utils.py lines
60-92).  `lmsRoot` is `settings.LMS_ROOT_PUBLIC` (interpolated into the
pattern as a literal); `secure_url` is
`get_secure_xblock_handler_url(request, block_id, handler_name)` for the
fixed request, applied to each match's groups; after the substitution the
source asserts that the prefix no longer occurs, so the function either
returns the rewritten HTML or raises `AssertionError`. -/
def rewrite_blockstore_runtime_handler_urls (lmsRoot : String)
    (secure_url : String → String → String) (html : String) :
    Except AssertionError String :=
  let html₂ := reSub (handlerUrlStep lmsRoot.toList secure_url) html
  if strHasInfix (lmsRoot ++ "/api/xblock/v2/xblocks/") html₂ then .error .mk
  else .ok html₂

/-- `m` (a pattern matcher) matches at no position inside `a` when `a` is
followed by `follow`: checked on every nonempty suffix of `a`. -/
def noMatchWithinB {α : Type} (m : List Char → Option α) : List Char → List Char → Bool
  | [], _ => true
  | c :: t, follow => (m ((c :: t) ++ follow)).isNone && noMatchWithinB m t follow

/-- The head of `b` fails `p` (or `b` is empty): a greedy `p+` run cannot
extend into `b`. -/
def headNotB (p : Char → Bool) : List Char → Bool
  | [] => true
  | c :: _ => !p c

/-- The exact text the `handler_url_pattern` regex describes: the
`LMS_ROOT_PUBLIC` prefix, the literal `/api/xblock/v2/xblocks/`, then the
four capture groups with their literal separators. -/
def legacyUrl (lmsRoot blockId userId token handlerName : List Char) : List Char :=
  lmsRoot ++ "/api/xblock/v2/xblocks/".toList ++ blockId ++ "/handler/".toList ++
    userId ++ '-' :: token ++ '/' :: handlerName

/-- The groups of a legacy handler URL are drawn from the pattern's
character classes and are non-empty. -/
def wellFormedLegacyPartsB (blockId userId token handlerName : List Char) : Bool :=
  !blockId.isEmpty && blockId.all isBlockIdChar &&
  !userId.isEmpty && userId.all isWordChar &&
  !token.isEmpty && token.all isWordChar &&
  !handlerName.isEmpty && handlerName.all isHandlerNameChar

/-- An input decomposed into alternating gaps and legacy handler URLs:
`gap₀ ++ url₀ ++ gap₁ ++ url₁ ++ … ++ tail`.  Each chunk is
`(gap, block_id, user_id, secure_token, handler_name)`. -/
def assembleLegacy (lmsRoot : List Char) :
    List (List Char × List Char × List Char × List Char × List Char) →
      List Char → List Char
  | [], tail => tail
  | (gap, blockId, userId, token, handlerName) :: more, tail =>
    gap ++ (legacyUrl lmsRoot blockId userId token handlerName ++
      assembleLegacy lmsRoot more tail)

/-- The same decomposition with every legacy URL replaced by the secure
handler URL for its `block_id` and `handler_name` groups. -/
def assembleSecured (secure_url : String → String → String) :
    List (List Char × List Char × List Char × List Char × List Char) →
      List Char → List Char
  | [], tail => tail
  | (gap, blockId, _userId, _token, handlerName) :: more, tail =>
    gap ++ ((secure_url blockId.asString handlerName.asString).toList ++
      assembleSecured secure_url more tail)

/-- The decomposition is exactly the set of matches: the pattern matches
nowhere inside any gap or inside the tail, every URL's groups are
well-formed, and no word-or-hyphen character follows a handler name (so
the greedy `[\w\-]+` run ends exactly there). -/
def goodHandlerDecompB (lmsRoot : List Char) :
    List (List Char × List Char × List Char × List Char × List Char) →
      List Char → Bool
  | [], tail => noMatchWithinB (matchHandlerUrlAt lmsRoot) tail []
  | (gap, blockId, userId, token, handlerName) :: more, tail =>
    noMatchWithinB (matchHandlerUrlAt lmsRoot) gap
      (legacyUrl lmsRoot blockId userId token handlerName ++
        assembleLegacy lmsRoot more tail) &&
    wellFormedLegacyPartsB blockId userId token handlerName &&
    headNotB isHandlerNameChar (assembleLegacy lmsRoot more tail) &&
    goodHandlerDecompB lmsRoot more tail

/-- A well-formed quoted static path in context: `q` is a quote, the rest
group contains neither the quote nor a newline (so the lazy `.*?` stops at
the path's own closing quote), the `(?!None)` lookahead passes, and the
prefix group is the `STATIC_URL` alternative, or the `/static/`
alternative with the `STATIC_URL` branch failing (regex alternation order). -/
def staticChunkOkB (staticUrl : List Char) (q : Char) (pg rest follow : List Char) : Bool :=
  (q = dquoteChar || q = squoteChar) &&
  rest.all (fun c => !(c = q || c = newlineChar)) &&
  !(("None".toList).isPrefixOf (rest ++ (q :: follow))) &&
  ((pg = staticUrl) ||
    (pg = staticSlashLit &&
      (tryStaticTail staticUrl [q] (pg ++ (rest ++ (q :: follow)))).isNone))

/-- An input decomposed into alternating gaps and quoted static paths:
`gap₀ ++ q₀‹path₀›q₀ ++ gap₁ ++ … ++ tail`.  Each chunk is
`(gap, quote, prefix_group, rest)`. -/
def assembleStatic :
    List (List Char × Char × List Char × List Char) → List Char → List Char
  | [], tail => tail
  | (gap, q, pg, rest) :: more, tail =>
    gap ++ (q :: (pg ++ (rest ++ (q :: assembleStatic more tail))))

/-- The same decomposition with every quoted path replaced by
`replace_static_url`'s output on the match groups the step extracts. -/
def assembleStaticRewritten (lookup : String → Option String) :
    List (List Char × Char × List Char × List Char) → List Char → List Char
  | [], tail => tail
  | (gap, q, pg, rest) :: more, tail =>
    gap ++ ((replace_static_url lookup
        ([q] ++ pg ++ rest ++ [q]).asString pg.asString [q].asString
        rest.asString).toList ++
      assembleStaticRewritten lookup more tail)

/-- The decomposition is exactly the set of matches: the pattern matches
nowhere inside any gap or inside the tail, and every chunk satisfies
`staticChunkOkB`. -/
def goodStaticDecompB (staticUrl : List Char) :
    List (List Char × Char × List Char × List Char) → List Char → Bool
  | [], tail => noMatchWithinB (matchStaticAt staticUrl) tail []
  | (gap, q, pg, rest) :: more, tail =>
    noMatchWithinB (matchStaticAt staticUrl) gap
      (q :: (pg ++ (rest ++ (q :: assembleStatic more tail)))) &&
    staticChunkOkB staticUrl q pg rest (assembleStatic more tail) &&
    goodStaticDecompB staticUrl more tail

/-! ### Theorems -/

theorem pySplit_ne_nil (sep : Char) (cs : List Char) : pySplit sep cs ≠ [] := by
  induction cs with
  | nil => simp [pySplit]
  | cons c cs ih =>
    simp only [pySplit]
    split
    · simp
    · cases h : pySplit sep cs with
      | nil => exact absurd h ih
      | cons t ts => simp [h]

theorem pySplit_length (sep : Char) (cs : List Char) :
    (pySplit sep cs).length = cs.count sep + 1 := by
  induction cs with
  | nil => simp [pySplit]
  | cons c cs ih =>
    simp only [pySplit]
    by_cases h : c = sep
    · subst h
      simp [List.count_cons, ih]
    · cases hs : pySplit sep cs with
      | nil => exact absurd hs (pySplit_ne_nil sep cs)
      | cons t ts =>
        simp only [if_neg h, hs, List.length_cons]
        rw [hs] at ih
        simp only [List.length_cons] at ih
        simp [List.count_cons, h, ih]

theorem stripPre_length_le (pre cs r : List Char) (h : stripPre pre cs = some r) :
    r.length ≤ cs.length := by
  unfold stripPre at h
  split at h
  · cases h
    simp [List.length_drop]
  · cases h

theorem stripPre_length_lt (pre cs r : List Char) (hpre : pre ≠ [])
    (h : stripPre pre cs = some r) : r.length < cs.length := by
  unfold stripPre at h
  split at h
  case isTrue hp =>
    cases h
    have hle : pre.length ≤ cs.length :=
      (List.isPrefixOf_iff_prefix.mp hp).length_le
    have hpos : 0 < pre.length := List.length_pos.mpr hpre
    simp only [List.length_drop]
    omega
  · cases h

theorem splitRun_length_lt (p : Char → Bool) (cs a r : List Char)
    (h : splitRun p cs = some (a, r)) : r.length < cs.length := by
  unfold splitRun at h
  split at h
  · cases h
  case isFalse hne =>
    cases h
    cases cs with
    | nil => simp at hne
    | cons c t =>
      by_cases hc : p c
      · simp only [List.dropWhile_cons, hc, if_true]
        have := (List.dropWhile_sublist (l := t) p).length_le
        simp only [List.length_cons]
        omega
      · simp [List.takeWhile_cons, hc] at hne

theorem splitRun_length_le (p : Char → Bool) (cs a r : List Char)
    (h : splitRun p cs = some (a, r)) : r.length ≤ cs.length :=
  le_of_lt (splitRun_length_lt p cs a r h)

theorem reSubScan_nil (step : List Char → Option (List Char × List Char))
    (fuel : Nat) : reSubScan step fuel [] = [] := by
  cases fuel <;> rfl

theorem reSubScan_fuel_irrelevant (step : List Char → Option (List Char × List Char))
    (hs : ShrinkingStep step) :
    ∀ fuel₁ fuel₂ cs, cs.length ≤ fuel₁ → cs.length ≤ fuel₂ →
      reSubScan step fuel₁ cs = reSubScan step fuel₂ cs := by
  intro fuel₁
  induction fuel₁ with
  | zero =>
    intro fuel₂ cs h₁ _
    have hnil : cs = [] := List.length_eq_zero.mp (Nat.le_zero.mp h₁)
    subst hnil
    rw [reSubScan_nil, reSubScan_nil]
  | succ f₁ ih =>
    intro fuel₂ cs h₁ h₂
    cases cs with
    | nil => rw [reSubScan_nil, reSubScan_nil]
    | cons c t =>
      have hf₂ : fuel₂ ≠ 0 := by
        simp only [List.length_cons] at h₂; omega
      obtain ⟨f₂, rfl⟩ := Nat.exists_eq_succ_of_ne_zero hf₂
      simp only [List.length_cons] at h₁ h₂
      simp only [reSubScan]
      cases hstep : step (c :: t) with
      | some pr =>
        obtain ⟨rep, rest⟩ := pr
        have hlt := hs _ _ _ hstep
        simp only [List.length_cons] at hlt
        simp only [ih f₂ rest (by omega) (by omega)]
      | none =>
        simp only [ih f₂ t (by omega) (by omega)]

/-- When the pattern matches nowhere in the input, `re.sub` is the
identity. -/
theorem reSubScan_no_match (step : List Char → Option (List Char × List Char)) :
    ∀ fuel cs, (∀ suf : List Char, suf.Sublist cs → step suf = none) →
      reSubScan step fuel cs = cs := by
  intro fuel
  induction fuel with
  | zero => intro cs _; rfl
  | succ f ih =>
    intro cs hnone
    cases cs with
    | nil => rfl
    | cons c t =>
      simp only [reSubScan, hnone (c :: t) (List.Sublist.refl _)]
      rw [ih t (fun suf hsuf => hnone suf (hsuf.trans (List.sublist_cons_self c t)))]

/-- Claim C3: `parse_xblock_include` returns
`XBlockInclude(link_id = source attribute or None, block_type / definition_id
= the two '/'-separated parts of the definition attribute, usage_hint = usage
attribute or None)` exactly when the tag is `xblock-include`, the
`definition` attribute is present, and its value contains exactly one `/`;
in every other case it raises `BundleFormatException`. -/
theorem parse_xblock_include_spec (node : XmlNode) (d : String) (bt di : List Char) :
    (node.tag = "xblock-include" → node.attribGet "definition" = some d →
      pySplit '/' d.toList = [bt, di] →
      parse_xblock_include node =
        .ok { link_id := node.attribGet "source", block_type := bt.asString,
              definition_id := di.asString, usage_hint := node.attribGet "usage" }) ∧
    (d.toList.count '/' = 1 ↔ ∃ a b, pySplit '/' d.toList = [a, b]) ∧
    (node.tag ≠ "xblock-include" →
      parse_xblock_include node = .error (.mk
        ("Expected an <xblock-include /> XML node, but got <" ++ node.tag ++ ">"))) ∧
    (node.tag = "xblock-include" → node.attribGet "definition" = none →
      parse_xblock_include node = .error (.mk
        "<xblock-include> is missing the required definition=\"...\" attribute")) ∧
    (node.tag = "xblock-include" → node.attribGet "definition" = some d →
      d.toList.count '/' ≠ 1 →
      parse_xblock_include node = .error (.mk
        ("Invalid definition attribute: " ++ d))) := by
  refine ⟨?_, ?_, ?_, ?_, ?_⟩
  · intro htag hdef hsplit
    simp only [String.toList] at hsplit
    simp [parse_xblock_include, htag, hdef, hsplit]
  · constructor
    · intro hcount
      have hlen : (pySplit '/' d.toList).length = 2 := by
        rw [pySplit_length, hcount]
      obtain ⟨a, b, hab⟩ := List.length_eq_two.mp hlen
      exact ⟨a, b, hab⟩
    · rintro ⟨a, b, hab⟩
      have := pySplit_length '/' d.toList
      rw [hab] at this
      simpa using this.symm
  · intro htag
    simp [parse_xblock_include, htag]
  · intro htag hdef
    simp [parse_xblock_include, htag, hdef]
  · intro htag hdef hcount
    have hlen : (pySplit '/' d.toList).length ≠ 2 := by
      rw [pySplit_length]; omega
    simp only [parse_xblock_include, htag, hdef, ne_eq, not_true_eq_false, if_false]
    cases hl : pySplit '/' d.toList with
    | nil => rfl
    | cons a l₁ =>
      cases l₁ with
      | nil => rfl
      | cons b l₂ =>
        cases l₂ with
        | nil =>
          rw [hl] at hlen
          simp at hlen
        | cons c l₃ => rfl

/-- Witness for `parse_xblock_include_spec`, instantiating the success case
at a concrete well-formed node and an error case at a node with a bad tag. -/
theorem parse_xblock_include_spec_witness :
    parse_xblock_include ⟨"xblock-include", [("source", "lnk"), ("definition", "problem/p1")]⟩ =
      .ok { link_id := some "lnk", block_type := "problem",
            definition_id := "p1", usage_hint := none } ∧
    parse_xblock_include ⟨"video", []⟩ = .error (.mk
      ("Expected an <xblock-include /> XML node, but got <" ++ "video" ++ ">")) := by
  constructor
  · have h := (parse_xblock_include_spec
      ⟨"xblock-include", [("source", "lnk"), ("definition", "problem/p1")]⟩
      "problem/p1" "problem".toList "p1".toList).1 rfl (by decide) (by decide)
    rw [h]
    rfl
  · exact (parse_xblock_include_spec ⟨"video", []⟩ "" [] []).2.2.1 (by decide)

theorem urlencode_cons_length (kv : String × String) (rest : List (String × String)) :
    0 < (urlencode (kv :: rest)).length := by
  have h1 : ("=" : String).length = 1 := rfl
  cases rest with
  | nil => simp [urlencode, String.length_append, h1]
  | cons kv₂ r₂ => simp [urlencode, String.length_append, h1]

theorem urlencode_cons_ne_empty (kv : String × String) (rest : List (String × String)) :
    urlencode (kv :: rest) ≠ "" := by
  intro h
  have := urlencode_cons_length kv rest
  rw [h] at this
  simp at this

/-- Claim C1: for every usage key, handler name and non-null user,
`get_handler_url` returns the site root URL plus the secure-handler route,
whose `secure_key` component is the first 20 hex characters of the
HMAC-blake2b digest, keyed with the Django `SECRET_KEY`, of
`str(floor(now / 172800)) + ":" + user_id + ":" + usage_key`, with
`extra_params` (when given and non-empty) appended as a URL-encoded query
string; for a falsy (`None`) user it raises `TypeError`. -/
theorem get_handler_url_spec (env : HandlerUrlEnv) (usage_key handler_name : String)
    (u : DjangoUser) (extra_params : Option (List (String × String))) :
    get_handler_url env usage_key handler_name (some u) extra_params =
      .ok (env.siteRootUrl ++
        env.reverseSecureHandler usage_key u.handlerUserId
          ((env.hmacBlake2bHexdigest env.secretKey
            (toString ((env.nowSeconds / 172800 : Nat) : Int) ++ ":" ++
              u.handlerUserId ++ ":" ++ usage_key)).take 20)
          handler_name ++
        (match extra_params with
          | none => ""
          | some [] => ""
          | some (kv :: rest) => "?" ++ urlencode (kv :: rest))) ∧
    get_handler_url env usage_key handler_name none extra_params =
      .error (.typeError "Cannot get handler URLs without specifying a specific user ID.") := by
  constructor
  · cases u with
    | authenticated username =>
      cases extra_params with
      | none =>
        simp [get_handler_url, get_secure_hash_for_xblock_handler, DjangoUser.handlerUserId]
      | some ps =>
        cases ps with
        | nil =>
          simp [get_handler_url, get_secure_hash_for_xblock_handler, DjangoUser.handlerUserId]
        | cons kv rest =>
          simp [get_handler_url, get_secure_hash_for_xblock_handler,
            DjangoUser.handlerUserId, urlencode_cons_ne_empty kv rest]
    | anonymous xid =>
      cases extra_params with
      | none =>
        simp [get_handler_url, get_secure_hash_for_xblock_handler, DjangoUser.handlerUserId]
      | some ps =>
        cases ps with
        | nil =>
          simp [get_handler_url, get_secure_hash_for_xblock_handler, DjangoUser.handlerUserId]
        | cons kv rest =>
          simp [get_handler_url, get_secure_hash_for_xblock_handler,
            DjangoUser.handlerUserId, urlencode_cons_ne_empty kv rest]
  · rfl

theorem matchQuote_length_lt (cs q rest : List Char)
    (h : matchQuote cs = some (q, rest)) : rest.length < cs.length := by
  match cs with
  | [] => cases h
  | [c₁] =>
    simp only [matchQuote] at h
    split at h
    · cases h; simp
    · cases h
  | c₁ :: c₂ :: t =>
    simp only [matchQuote] at h
    split at h
    · cases h
      simp only [List.length_cons]
      omega
    · split at h
      · cases h; simp
      · cases h

theorem findRest_length_le (quote : List Char) :
    ∀ cs r rem, findRest quote cs = some (r, rem) → rem.length ≤ cs.length := by
  intro cs
  induction cs with
  | nil =>
    intro r rem h
    simp only [findRest] at h
    split at h
    · cases h; simp
    · cases h
  | cons c t ih =>
    intro r rem h
    simp only [findRest] at h
    split at h
    · cases h
      simp only [List.length_drop]
      omega
    · split at h
      · cases h
      · rw [Option.map_eq_some'] at h
        obtain ⟨pr, hpr, heq⟩ := h
        cases heq
        have := ih pr.1 pr.2 (by rw [hpr])
        simp only [List.length_cons]
        omega

theorem tryStaticTail_length_le (lit quote cs pre r rem : List Char)
    (h : tryStaticTail lit quote cs = some (pre, r, rem)) :
    rem.length ≤ cs.length := by
  simp only [tryStaticTail] at h
  split at h
  · cases h
  case h_2 cs₁ hs =>
    split at h
    · cases h
    · rw [Option.map_eq_some'] at h
      obtain ⟨pr, hpr, heq⟩ := h
      cases heq
      have h1 := findRest_length_le quote cs₁ pr.1 pr.2 (by rw [hpr])
      have h2 := stripPre_length_le lit cs cs₁ hs
      omega

theorem matchStaticAt_shrinking (staticUrl : List Char) :
    ∀ cs q pre r rem, matchStaticAt staticUrl cs = some (q, pre, r, rem) →
      rem.length < cs.length := by
  intro cs q pre r rem h
  cases hq : matchQuote cs with
  | none => simp [matchStaticAt, hq] at h
  | some qpr =>
    obtain ⟨qq, cs₁⟩ := qpr
    have hqlt := matchQuote_length_lt cs qq cs₁ hq
    cases h₁ : tryStaticTail staticUrl qq cs₁ with
    | some m =>
      obtain ⟨p₁, r₁, rem₁⟩ := m
      simp only [matchStaticAt, hq, h₁] at h
      cases h
      have := tryStaticTail_length_le staticUrl _ _ _ _ _ h₁
      omega
    | none =>
      cases h₂ : tryStaticTail staticSlashLit qq cs₁ with
      | some m =>
        obtain ⟨p₂, r₂, rem₂⟩ := m
        simp only [matchStaticAt, hq, h₁, h₂] at h
        cases h
        have := tryStaticTail_length_le staticSlashLit _ _ _ _ _ h₂
        omega
      | none => simp [matchStaticAt, hq, h₁, h₂] at h

/-- Claim C5 counterexample: the source routes `Scope.user_state` to
`None` (`student_data_store = None`, runtime.py line 148), not to a
relational-database-backed student data store as the claim states. -/
theorem field_data_routing_counterexample :
    init_field_data_for_block FieldScope.user_state = none ∧
    spec_field_data_routing FieldScope.user_state = some FieldDataStore.studentDataStore ∧
    init_field_data_for_block FieldScope.user_state ≠
      spec_field_data_routing FieldScope.user_state := by
  refine ⟨rfl, rfl, ?_⟩
  decide

/-- Claim C5 as amended: the field data returned by the first `field-data`
service call routes the authored scopes (content, settings, parent) to the
content-store-backed authored data store and the children scope to the
children data store, but routes the four user-state scopes to `None` —
the relational-database-backed student data store is not implemented
(`student_data_store = None`, a TODO in the source). -/
theorem field_data_routing_amended (sid : Nat) :
    (@service_field_data Nat (FieldScope → Option FieldDataStore) Unit _
        (fun _ => .ok init_field_data_for_block) ⟨[]⟩ sid).1 =
      .ok (some init_field_data_for_block) ∧
    init_field_data_for_block FieldScope.content = some FieldDataStore.authoredDataStore ∧
    init_field_data_for_block FieldScope.settings = some FieldDataStore.authoredDataStore ∧
    init_field_data_for_block FieldScope.parent = some FieldDataStore.authoredDataStore ∧
    init_field_data_for_block FieldScope.children = some FieldDataStore.childrenDataStore ∧
    init_field_data_for_block FieldScope.user_state_summary = none ∧
    init_field_data_for_block FieldScope.user_state = none ∧
    init_field_data_for_block FieldScope.user_info = none ∧
    init_field_data_for_block FieldScope.preferences = none :=
  ⟨rfl, rfl, rfl, rfl, rfl, rfl, rfl, rfl, rfl⟩

/-- Claim C8: `XBlockRuntime.render` raises `PermissionDenied` without
invoking the block's view whenever the user is `None` or anonymous and the
view is not `public_view` (the result is a constant independent of `env`,
which carries the base-class render that invokes the view), and for
`public_view` the permission check never raises, for any user.  The last
conjunct pins down the meaning of `userIsNoneOrAnonymous`. -/
theorem render_permission_spec (env : RenderEnv) (user : Option DjangoUser)
    (view_name : String) :
    (userIsNoneOrAnonymous user = true → view_name ≠ "public_view" →
      XBlockRuntime_render env user view_name = .error .permissionDenied) ∧
    XBlockRuntime_render env user "public_view" ≠ .error .permissionDenied ∧
    (userIsNoneOrAnonymous user = true ↔
      (user = none ∨ ∃ xid, user = some (.anonymous xid))) := by
  refine ⟨?_, ?_, ?_⟩
  · intro h1 h2
    simp [XBlockRuntime_render, h1, h2]
  · simp [XBlockRuntime_render]
  · cases user with
    | none => simp [userIsNoneOrAnonymous]
    | some u =>
      cases u with
      | authenticated username => simp [userIsNoneOrAnonymous]
      | anonymous xid => simp [userIsNoneOrAnonymous]

/-- Witness for `render_permission_spec`: an anonymous user requesting
`student_view` is denied. -/
theorem render_permission_spec_witness :
    XBlockRuntime_render ⟨fun _ => ⟨"", []⟩, "", "", fun _ => none⟩
      (some (.anonymous "anon123")) "student_view" = .error .permissionDenied :=
  (render_permission_spec ⟨fun _ => ⟨"", []⟩, "", "", fun _ => none⟩
    (some (.anonymous "anon123")) "student_view").1 rfl (by decide)

/-- Claim C9: when the first `field-data` service call for given scope ids
fails during initialization, the exception propagates, `None` is cached
for those scope ids, and every later call for the same scope ids — with
any initializer, showing initialization is not retried — returns `None`
without raising and leaves the cache unchanged. -/
theorem service_field_data_failure_spec {K FD E : Type} [DecidableEq K]
    (init : K → Except E FD) (st : ServiceState K FD) (sid : K) (e : E)
    (hmiss : lookupAssoc st.block_field_datas sid = none)
    (hfail : init sid = .error e) :
    (service_field_data init st sid).1 = .error e ∧
    lookupAssoc (service_field_data init st sid).2.block_field_datas sid = some none ∧
    ∀ (init₂ : K → Except E FD),
      service_field_data init₂ (service_field_data init st sid).2 sid =
        (.ok none, (service_field_data init st sid).2) := by
  have hstate : (service_field_data init st sid).2 =
      ⟨(sid, none) :: st.block_field_datas⟩ := by
    simp [service_field_data, hmiss, hfail]
  have hhit : lookupAssoc ((sid, (none : Option FD)) :: st.block_field_datas) sid =
      some none := by
    simp [lookupAssoc, List.find?]
  refine ⟨?_, ?_, ?_⟩
  · simp [service_field_data, hmiss, hfail]
  · rw [hstate]
    exact hhit
  · intro init₂
    rw [hstate]
    simp [service_field_data, hhit]

/-- Witness for `service_field_data_failure_spec` at a concrete failing
initializer over an empty cache. -/
theorem service_field_data_failure_spec_witness :
    (@service_field_data Nat Unit String _ (fun _ => .error "boom") ⟨[]⟩ 7).1 =
      .error "boom" ∧
    lookupAssoc (@service_field_data Nat Unit String _
      (fun _ => .error "boom") ⟨[]⟩ 7).2.block_field_datas 7 = some none ∧
    ∀ (init₂ : Nat → Except String Unit),
      service_field_data init₂ (@service_field_data Nat Unit String _
          (fun _ => .error "boom") ⟨[]⟩ 7).2 7 =
        (.ok none, (@service_field_data Nat Unit String _
          (fun _ => .error "boom") ⟨[]⟩ 7).2) :=
  service_field_data_failure_spec (fun _ => .error "boom") ⟨[]⟩ 7 "boom" rfl rfl

/-- Claim C10: for every block and asset path containing `..`,
`BlockstoreXBlockRuntime._lookup_asset_url` returns `None`, so a
path-traversal asset path is never resolved to a URL. -/
theorem lookup_asset_url_traversal_spec (env : AssetUrlEnv)
    (usage_id asset_path : String)
    (h : strHasInfix ".." asset_path = true) :
    blockstore_lookup_asset_url env usage_id asset_path = none := by
  simp [blockstore_lookup_asset_url, h]

/-- Witness for `lookup_asset_url_traversal_spec` at a concrete traversal
path. -/
theorem lookup_asset_url_traversal_spec_witness :
    strHasInfix ".." "a/../secret.png" = true ∧
    blockstore_lookup_asset_url ⟨fun _ _ => "", fun s => s⟩
      "lb:LX:html:1" "a/../secret.png" = none :=
  ⟨by decide, lookup_asset_url_traversal_spec ⟨fun _ _ => "", fun s => s⟩
    "lb:LX:html:1" "a/../secret.png" (by decide)⟩

/-- Claim C4: `get_block` raises `ValueError` when the id reader finds no
definition id, `TypeError` when the definition id is not a
`BundleDefinitionLocator`, `NoSuchUsage` when the block type cannot be
determined, `UnsupportedBlockType` when the block type is not in the
configured supported set, and only when none of these hold does it
construct and return an XBlock (from the cached definition, or by parsing
the OLX file). -/
theorem blockstore_get_block_spec (env : GetBlockEnv) (user_id : Option String)
    (usage_id : String) :
    (env.get_definition_id usage_id = none →
      blockstore_get_block env user_id usage_id =
        .error (.valueError ("Definition not found for usage " ++ usage_id))) ∧
    (∀ k, env.get_definition_id usage_id = some (.nonBundle k) →
      blockstore_get_block env user_id usage_id =
        .error (.typeError "This runtime can only load blocks stored in Blockstore bundles.")) ∧
    (∀ bu op dn, env.get_definition_id usage_id = some (.bundle bu op dn) →
      env.get_block_type (.bundle bu op dn) = .error () →
      blockstore_get_block env user_id usage_id = .error (.noSuchUsage usage_id)) ∧
    (∀ bu op dn bt, env.get_definition_id usage_id = some (.bundle bu op dn) →
      env.get_block_type (.bundle bu op dn) = .ok bt →
      bt ∉ env.supported_block_types →
      blockstore_get_block env user_id usage_id = .error .unsupportedBlockType) ∧
    (∀ bu op dn bt, env.get_definition_id usage_id = some (.bundle bu op dn) →
      env.get_block_type (.bundle bu op dn) = .ok bt →
      bt ∈ env.supported_block_types →
      blockstore_get_block env user_id usage_id =
        .ok (if env.has_cached_definition usage_id then
          .constructedFromCachedDefinition ⟨user_id, bt, .bundle bu op dn, usage_id⟩
        else
          .parsedFromOlx ⟨user_id, bt, .bundle bu op dn, usage_id⟩
            (env.has_parse_xml_new_runtime bt))) := by
  refine ⟨?_, ?_, ?_, ?_, ?_⟩
  · intro h
    simp [blockstore_get_block, h]
  · intro k h
    simp [blockstore_get_block, h]
  · intro bu op dn h hbt
    simp [blockstore_get_block, h, hbt]
  · intro bu op dn bt h hbt hsup
    simp [blockstore_get_block, h, hbt, hsup]
  · intro bu op dn bt h hbt hsup
    by_cases hc : env.has_cached_definition usage_id
    · simp [blockstore_get_block, h, hbt, hsup, hc]
    · simp [blockstore_get_block, h, hbt, hsup, hc]

/-- Witness for `blockstore_get_block_spec`: a concrete environment with
one bundle-backed supported block and one unknown usage, exercising the
success case and the `ValueError` case. -/
theorem blockstore_get_block_spec_witness :
    blockstore_get_block
      ⟨fun u => if u = "u1" then some (.bundle "b" "problem/p1/definition.xml" none) else none,
       fun _ => .ok "problem", ["problem"], fun _ => true, fun _ => false⟩
      (some "alice") "u1" =
      .ok (.constructedFromCachedDefinition
        ⟨some "alice", "problem", .bundle "b" "problem/p1/definition.xml" none, "u1"⟩) ∧
    blockstore_get_block
      ⟨fun u => if u = "u1" then some (.bundle "b" "problem/p1/definition.xml" none) else none,
       fun _ => .ok "problem", ["problem"], fun _ => true, fun _ => false⟩
      (some "alice") "u2" =
      .error (.valueError ("Definition not found for usage " ++ "u2")) := by
  constructor
  · have h := (blockstore_get_block_spec
      ⟨fun u => if u = "u1" then some (.bundle "b" "problem/p1/definition.xml" none) else none,
       fun _ => .ok "problem", ["problem"], fun _ => true, fun _ => false⟩
      (some "alice") "u1").2.2.2.2 "b" "problem/p1/definition.xml" none "problem"
      (by decide) rfl (by decide)
    rw [h]
    rfl
  · exact (blockstore_get_block_spec
      ⟨fun u => if u = "u1" then some (.bundle "b" "problem/p1/definition.xml" none) else none,
       fun _ => .ok "problem", ["problem"], fun _ => true, fun _ => false⟩
      (some "alice") "u2").1 (by decide)

/- ### Source: `src/xblock_runtime_lib/api.py` lines 33-58 -/

theorem lookupAssoc_cons_self {K V : Type} [DecidableEq K]
    (l : List (K × V)) (k : K) (v : V) :
    lookupAssoc ((k, v) :: l) k = some v := by
  simp [lookupAssoc, List.find?]

theorem lookupAssoc_cons_ne {K V : Type} [DecidableEq K]
    (l : List (K × V)) (k k' : K) (v : V) (h : k' ≠ k) :
    lookupAssoc ((k', v) :: l) k = lookupAssoc l k := by
  simp [lookupAssoc, List.find?, h]

theorem lookupAssoc_mem {K V : Type} [DecidableEq K]
    (l : List (K × V)) (k : K) (v : V)
    (h : lookupAssoc l k = some v) : (k, v) ∈ l := by
  unfold lookupAssoc at h
  cases hf : l.find? (fun kv => kv.1 = k) with
  | none => rw [hf] at h; cases h
  | some kv =>
    rw [hf] at h
    cases h
    have hm := List.mem_of_find?_eq_some hf
    have hp := List.find?_some hf
    obtain ⟨k₁, v₁⟩ := kv
    simp only [decide_eq_true_eq] at hp
    subst hp
    exact hm

theorem get_runtime_system_preserves_inv (tid : Nat) (s : RuntimeSystemCache)
    (hinv : RuntimeSystemCacheInv s) :
    RuntimeSystemCacheInv (get_runtime_system tid s).2 := by
  obtain ⟨h1, h2⟩ := hinv
  unfold get_runtime_system
  cases hl : lookupAssoc s.cache tid with
  | some sysId => exact ⟨h1, h2⟩
  | none =>
    constructor
    · intro p hp
      cases hp with
      | head => simp
      | tail _ hp' => exact Nat.lt_succ_of_lt (h1 p hp')
    · intro p hp q hq hne
      cases hp with
      | head =>
        cases hq with
        | head => simp at hne
        | tail _ hq' =>
          have := h1 q hq'
          omega
      | tail _ hp' =>
        cases hq with
        | head =>
          have := h1 p hp'
          omega
        | tail _ hq' => exact h2 p hp' q hq' hne

theorem get_runtime_system_same_thread (tid : Nat) (s : RuntimeSystemCache) :
    (get_runtime_system tid (get_runtime_system tid s).2).1 =
      (get_runtime_system tid s).1 := by
  unfold get_runtime_system
  cases hl : lookupAssoc s.cache tid with
  | some sysId => simp [hl]
  | none => simp [lookupAssoc_cons_self]

theorem get_runtime_system_other_thread (t₁ t₂ : Nat) (s : RuntimeSystemCache)
    (hinv : RuntimeSystemCacheInv s) (hne : t₁ ≠ t₂) :
    (get_runtime_system t₂ (get_runtime_system t₁ s).2).1 ≠
      (get_runtime_system t₁ s).1 := by
  obtain ⟨h1, h2⟩ := hinv
  unfold get_runtime_system
  cases hl₁ : lookupAssoc s.cache t₁ with
  | some v₁ =>
    simp only
    cases hl₂ : lookupAssoc s.cache t₂ with
    | some v₂ =>
      simp only
      exact h2 (t₂, v₂) (lookupAssoc_mem _ _ _ hl₂)
        (t₁, v₁) (lookupAssoc_mem _ _ _ hl₁) (fun h => hne h.symm)
    | none =>
      simp only
      have := h1 (t₁, v₁) (lookupAssoc_mem _ _ _ hl₁)
      omega
  | none =>
    simp only
    rw [lookupAssoc_cons_ne s.cache t₂ t₁ s.nextId hne]
    cases hl₂ : lookupAssoc s.cache t₂ with
    | some v₂ =>
      simp only
      have := h1 (t₂, v₂) (lookupAssoc_mem _ _ _ hl₂)
      omega
    | none => simp

/-- Claim C6: `get_runtime_system` is memoized per thread.  Starting from
any well-formed cache state (the initial, empty state is well-formed and
well-formedness is preserved by every call): two calls with the same
thread identifier return the very same instance, and a call on a
different thread returns a distinct instance, so no runtime system is
shared between threads. -/
theorem get_runtime_system_thread_local_spec (s : RuntimeSystemCache)
    (t t₁ t₂ : Nat) (hinv : RuntimeSystemCacheInv s) (hne : t₁ ≠ t₂) :
    RuntimeSystemCacheInv ⟨[], 0⟩ ∧
    RuntimeSystemCacheInv (get_runtime_system t s).2 ∧
    (get_runtime_system t (get_runtime_system t s).2).1 =
      (get_runtime_system t s).1 ∧
    (get_runtime_system t₂ (get_runtime_system t₁ s).2).1 ≠
      (get_runtime_system t₁ s).1 :=
  ⟨⟨fun p hp => absurd hp (List.not_mem_nil p),
    fun p hp => absurd hp (List.not_mem_nil p)⟩,
   get_runtime_system_preserves_inv t s hinv,
   get_runtime_system_same_thread t s,
   get_runtime_system_other_thread t₁ t₂ s hinv hne⟩

/-- Witness for `get_runtime_system_thread_local_spec`: from the empty
cache, thread 1 gets the same instance twice and thread 2 gets a
different one. -/
theorem get_runtime_system_thread_local_spec_witness :
    (get_runtime_system 1 (get_runtime_system 1 ⟨[], 0⟩).2).1 =
      (get_runtime_system 1 ⟨[], 0⟩).1 ∧
    (get_runtime_system 2 (get_runtime_system 1 ⟨[], 0⟩).2).1 ≠
      (get_runtime_system 1 ⟨[], 0⟩).1 := by
  have hinv : RuntimeSystemCacheInv ⟨[], 0⟩ :=
    ⟨fun p hp => absurd hp (List.not_mem_nil p),
     fun p hp => absurd hp (List.not_mem_nil p)⟩
  have h := get_runtime_system_thread_local_spec ⟨[], 0⟩ 1 1 2 hinv (by decide)
  exact ⟨h.2.2.1, h.2.2.2⟩

/-- Claim C2 counterexample: on an input that contains the
`{LMS_ROOT_PUBLIC}/api/xblock/v2/xblocks/` prefix without a complete
legacy handler URL after it, the regex does not match, the prefix
survives the substitution, and the trailing `assert` fails — the
function raises `AssertionError` instead of returning, so the assertion
does not hold for every input. -/
theorem rewrite_handler_urls_counterexample :
    rewrite_blockstore_runtime_handler_urls "http://lms"
      (fun b h => "https://sec/" ++ b ++ "/" ++ h)
      "<a href=\"http://lms/api/xblock/v2/xblocks/\">x</a>" = .error .mk := by
  rfl

theorem stripPre_append (pre x : List Char) : stripPre pre (pre ++ x) = some x := by
  unfold stripPre
  rw [if_pos (List.isPrefixOf_iff_prefix.mpr (List.prefix_append pre x))]
  rw [List.drop_left]

theorem matchQuote_none_of_no_quotes (cs : List Char)
    (h : ∀ c ∈ cs, c ≠ squoteChar ∧ c ≠ dquoteChar) : matchQuote cs = none := by
  match cs with
  | [] => rfl
  | [c₁] =>
    have h₁ := h c₁ (by simp)
    simp [matchQuote, h₁.1, h₁.2]
  | c₁ :: c₂ :: t =>
    have h₁ := h c₁ (by simp)
    have h₂ := h c₂ (by simp)
    simp [matchQuote, h₁.1, h₁.2, h₂.1, h₂.2]

theorem findRest_closing (q : Char) (rest : List Char)
    (h : ∀ c ∈ rest, c ≠ q ∧ c ≠ newlineChar) :
    findRest [q] (rest ++ [q]) = some (rest, []) := by
  induction rest with
  | nil => simp [findRest]
  | cons c t ih =>
    have hc := h c (by simp)
    have ht : ∀ x ∈ t, x ≠ q ∧ x ≠ newlineChar := fun x hx => h x (by simp [hx])
    simp only [List.cons_append, findRest]
    rw [if_neg, if_neg hc.2, List.append_eq, ih ht]
    · rfl
    · simp [List.isPrefixOf, Ne.symm hc.1]

theorem matchStaticAt_full (q : Char) (rest : List Char)
    (hq : q = dquoteChar ∨ q = squoteChar)
    (hrest : ∀ c ∈ rest, c ≠ q ∧ c ≠ newlineChar)
    (hnone : "None".toList.isPrefixOf (rest ++ [q]) = false) :
    matchStaticAt staticSlashLit (q :: (staticSlashLit ++ (rest ++ [q]))) =
      some ([q], staticSlashLit, rest, []) := by
  have hmq : matchQuote (q :: (staticSlashLit ++ (rest ++ [q]))) =
      some ([q], staticSlashLit ++ (rest ++ [q])) := by
    rcases hq with rfl | rfl <;> rfl
  have htail : tryStaticTail staticSlashLit [q] (staticSlashLit ++ (rest ++ [q])) =
      some (staticSlashLit, rest, []) := by
    simp only [tryStaticTail, stripPre_append]
    rw [if_neg (by rw [hnone]; exact Bool.false_ne_true), findRest_closing q rest hrest]
    rfl
  simp [matchStaticAt, hmq, htail]

theorem matchStaticAt_none_of_no_quotes (staticUrl cs : List Char)
    (h : ∀ c ∈ cs, c ≠ squoteChar ∧ c ≠ dquoteChar) :
    matchStaticAt staticUrl cs = none := by
  unfold matchStaticAt
  rw [matchQuote_none_of_no_quotes cs h]

theorem transform_no_quotes (staticUrl : String)
    (lookup : String → Option String) (html : String)
    (h : ∀ c ∈ html.toList, c ≠ squoteChar ∧ c ≠ dquoteChar) :
    transform_static_paths_to_urls staticUrl lookup html = html := by
  unfold transform_static_paths_to_urls process_static_urls reSub
  rw [reSubScan_no_match]
  · rfl
  · intro suf hsuf
    simp only [staticStep,
      matchStaticAt_none_of_no_quotes staticUrl.toList suf (fun c hc => h c (hsuf.subset hc)),
      Option.map_none']

theorem transform_quoted_path (lookup : String → Option String) (q : Char)
    (rest : String)
    (hq : q = dquoteChar ∨ q = squoteChar)
    (hrest : ∀ c ∈ rest.toList, c ≠ q ∧ c ≠ newlineChar)
    (hnone : "None".toList.isPrefixOf (rest.toList ++ [q]) = false) :
    transform_static_paths_to_urls "/static/" lookup
        ⟨q :: (staticSlashLit ++ (rest.toList ++ [q]))⟩ =
      ⟨[q]⟩ ++ (if strEndsWith rest "?raw" then "/static/" ++ rest
        else match lookup rest with
          | some u => if u = "" then "/static/" ++ rest else u
          | none => "/static/" ++ rest) ++ ⟨[q]⟩ := by
  have hm := matchStaticAt_full q rest.toList hq hrest hnone
  have hconv : ("/static/").toList = staticSlashLit := rfl
  unfold transform_static_paths_to_urls process_static_urls reSub
  have hlen : (String.mk (q :: (staticSlashLit ++ (rest.toList ++ [q])))).toList =
      q :: (staticSlashLit ++ (rest.toList ++ [q])) := rfl
  rw [hlen, List.length_cons]
  have hstep : staticStep "/static/" (replace_static_url lookup)
      (q :: (staticSlashLit ++ (rest.toList ++ [q]))) =
      some ((replace_static_url lookup
          (([q] ++ staticSlashLit ++ rest.toList ++ [q]).asString)
          staticSlashLit.asString [q].asString rest.toList.asString).toList, []) := by
    unfold staticStep
    rw [hconv, hm]
    rfl
  simp only [reSubScan, hstep, reSubScan_nil, List.append_nil]
  simp only [replace_static_url, String.asString_toList]
  by_cases hraw : strEndsWith rest "?raw" = true
  · simp only [hraw, if_true]
    rfl
  · simp only [hraw, if_false]
    cases hlk : lookup rest with
    | none => rfl
    | some u =>
      by_cases hu : u = ""
      · simp only [hu, if_true]
        rfl
      · simp only [hu, if_false]
        rfl

/-- Claim C7 counterexample: `process_static_urls` formats
`data_dir=None` into the pattern, producing a `(?!None)` negative
lookahead, so a quoted static path whose remainder after the prefix
starts with `None` is left unchanged even though `_lookup_asset_url`
resolves it — while the identical path without the `None` prefix is
replaced.  The claim as stated says both are replaced. -/
theorem transform_static_paths_counterexample :
    transform_static_paths_to_urls "/static/" (fun _ => some "https://cdn/x.png")
      "\"/static/Nonefile.png\"" = "\"/static/Nonefile.png\"" ∧
    transform_static_paths_to_urls "/static/" (fun _ => some "https://cdn/x.png")
      "\"/static/file.png\"" = "\"https://cdn/x.png\"" ∧
    ("\"/static/Nonefile.png\"" : String) ≠ "\"/static/file.png\"" := by
  refine ⟨by rfl, by rfl, by decide⟩

theorem noMatchWithinB_spec {α : Type} (m : List Char → Option α) :
    ∀ (a follow : List Char), noMatchWithinB m a follow = true →
      ∀ a₁ a₂, a = a₁ ++ a₂ → a₂ ≠ [] → m (a₂ ++ follow) = none := by
  intro a
  induction a with
  | nil =>
    intro follow _ a₁ a₂ hsplit hne
    have : a₂ = [] := (List.append_eq_nil.mp hsplit.symm).2
    exact absurd this hne
  | cons c t ih =>
    intro follow h a₁ a₂ hsplit hne
    simp only [noMatchWithinB, Bool.and_eq_true] at h
    cases a₁ with
    | nil =>
      simp only [List.nil_append] at hsplit
      subst hsplit
      exact Option.isNone_iff_eq_none.mp h.1
    | cons c₁ t₁ =>
      simp only [List.cons_append, List.cons.injEq] at hsplit
      exact ih follow h.2 t₁ a₂ hsplit.2 hne

/-- When the pattern matches at no position of the input (checked on
suffixes, which are the only positions the scan visits), `re.sub` is the
identity. -/
theorem reSubScan_no_match_suffix (step : List Char → Option (List Char × List Char)) :
    ∀ fuel cs, (∀ c₁ c₂ : List Char, cs = c₁ ++ c₂ → c₂ ≠ [] → step c₂ = none) →
      reSubScan step fuel cs = cs := by
  intro fuel
  induction fuel with
  | zero => intro cs _; rfl
  | succ f ih =>
    intro cs hnone
    cases cs with
    | nil => rfl
    | cons c t =>
      simp only [reSubScan, hnone [] (c :: t) rfl (by simp)]
      rw [ih t (fun c₁ c₂ hsplit hne => hnone (c :: c₁) c₂ (by simp [hsplit]) hne)]

/-- Unfolding one match of the scan, renormalizing the fuel. -/
theorem reSubScan_match (step : List Char → Option (List Char × List Char))
    (hs : ShrinkingStep step) (cs rep rest : List Char) (fuel : Nat)
    (hm : step cs = some (rep, rest)) (hfuel : cs.length ≤ fuel) :
    reSubScan step fuel cs = rep ++ reSubScan step rest.length rest := by
  have hlt := hs _ _ _ hm
  cases cs with
  | nil => simp at hlt
  | cons c t =>
    have hf : fuel ≠ 0 := by
      simp only [List.length_cons] at hfuel; omega
    obtain ⟨f, rfl⟩ := Nat.exists_eq_succ_of_ne_zero hf
    simp only [reSubScan, hm]
    rw [reSubScan_fuel_irrelevant step hs f rest.length rest (by
      simp only [List.length_cons] at hfuel hlt; omega) (le_refl _)]

/-- The scan copies a match-free block verbatim and continues after it. -/
theorem reSubScan_append_no_match (step : List Char → Option (List Char × List Char))
    (hs : ShrinkingStep step) :
    ∀ (a b : List Char) (fuel : Nat), (a ++ b).length ≤ fuel →
      (∀ a₁ a₂ : List Char, a = a₁ ++ a₂ → a₂ ≠ [] → step (a₂ ++ b) = none) →
      reSubScan step fuel (a ++ b) = a ++ reSubScan step b.length b := by
  intro a
  induction a with
  | nil =>
    intro b fuel hfuel _
    simp only [List.nil_append]
    exact reSubScan_fuel_irrelevant step hs fuel b.length b
      (by simpa using hfuel) (le_refl _)
  | cons c t ih =>
    intro b fuel hfuel hnm
    have hf : fuel ≠ 0 := by
      simp only [List.cons_append, List.length_cons] at hfuel; omega
    obtain ⟨f, rfl⟩ := Nat.exists_eq_succ_of_ne_zero hf
    have hstep : step ((c :: t) ++ b) = none := hnm [] (c :: t) rfl (by simp)
    simp only [List.cons_append] at hstep ⊢
    simp only [reSubScan, hstep]
    rw [ih b f (by simp only [List.cons_append, List.length_cons] at hfuel; simpa using Nat.le_of_succ_le_succ hfuel)
      (fun a₁ a₂ hsplit hne => hnm (c :: a₁) a₂ (by simp [hsplit]) hne)]

theorem takeWhile_append_all (p : Char → Bool) :
    ∀ (a b : List Char), (∀ c ∈ a, p c = true) → headNotB p b = true →
      (a ++ b).takeWhile p = a := by
  intro a
  induction a with
  | nil =>
    intro b _ hb
    cases b with
    | nil => rfl
    | cons c t =>
      simp only [headNotB, Bool.not_eq_true'] at hb
      simp [List.takeWhile_cons, hb]
  | cons c t ih =>
    intro b hall hb
    have hc := hall c (by simp)
    simp only [List.cons_append, List.takeWhile_cons, hc, if_true]
    rw [ih b (fun x hx => hall x (by simp [hx])) hb]

theorem dropWhile_append_all (p : Char → Bool) :
    ∀ (a b : List Char), (∀ c ∈ a, p c = true) → headNotB p b = true →
      (a ++ b).dropWhile p = b := by
  intro a
  induction a with
  | nil =>
    intro b _ hb
    cases b with
    | nil => rfl
    | cons c t =>
      simp only [headNotB, Bool.not_eq_true'] at hb
      simp [List.dropWhile_cons, hb]
  | cons c t ih =>
    intro b hall hb
    have hc := hall c (by simp)
    simp only [List.cons_append, List.dropWhile_cons, hc, if_true]
    exact ih b (fun x hx => hall x (by simp [hx])) hb

/-- A greedy `p+` run over `a ++ b` where all of `a` satisfies `p` and the
head of `b` does not: the run is exactly `a`. -/
theorem splitRun_append (p : Char → Bool) (a b : List Char)
    (ha : a ≠ []) (hall : ∀ c ∈ a, p c = true) (hb : headNotB p b = true) :
    splitRun p (a ++ b) = some (a, b) := by
  unfold splitRun
  rw [takeWhile_append_all p a b hall hb, dropWhile_append_all p a b hall hb,
    if_neg (by simpa using ha)]

theorem matchHandlerUrlAt_legacy (lmsRoot blockId userId token handlerName rest : List Char)
    (hwf : wellFormedLegacyPartsB blockId userId token handlerName = true)
    (hrest : headNotB isHandlerNameChar rest = true) :
    matchHandlerUrlAt lmsRoot (legacyUrl lmsRoot blockId userId token handlerName ++ rest) =
      some (blockId, handlerName, rest) := by
  simp only [wellFormedLegacyPartsB, Bool.and_eq_true] at hwf
  obtain ⟨⟨⟨⟨⟨⟨⟨hb1, hb2⟩, hu1⟩, hu2⟩, ht1⟩, ht2⟩, hh1⟩, hh2⟩ := hwf
  have hb1' : blockId ≠ [] := by
    intro hcon; rw [hcon] at hb1; simp at hb1
  have hu1' : userId ≠ [] := by
    intro hcon; rw [hcon] at hu1; simp at hu1
  have ht1' : token ≠ [] := by
    intro hcon; rw [hcon] at ht1; simp at ht1
  have hh1' : handlerName ≠ [] := by
    intro hcon; rw [hcon] at hh1; simp at hh1
  have h0 : legacyUrl lmsRoot blockId userId token handlerName ++ rest =
      (lmsRoot ++ "/api/xblock/v2/xblocks/".toList) ++
        (blockId ++ ("/handler/".toList ++
          (userId ++ ('-' :: (token ++ ('/' :: (handlerName ++ rest))))))) := by
    simp [legacyUrl, List.append_assoc]
  have s1 := stripPre_append (lmsRoot ++ "/api/xblock/v2/xblocks/".toList)
    (blockId ++ ("/handler/".toList ++
      (userId ++ ('-' :: (token ++ ('/' :: (handlerName ++ rest)))))))
  have s2 : splitRun isBlockIdChar
      (blockId ++ ("/handler/".toList ++
        (userId ++ ('-' :: (token ++ ('/' :: (handlerName ++ rest))))))) =
      some (blockId, "/handler/".toList ++
        (userId ++ ('-' :: (token ++ ('/' :: (handlerName ++ rest)))))) :=
    splitRun_append isBlockIdChar _ _ hb1' (List.all_eq_true.mp hb2) rfl
  have s3 := stripPre_append "/handler/".toList
    (userId ++ ('-' :: (token ++ ('/' :: (handlerName ++ rest)))))
  have s4 : splitRun isWordChar
      (userId ++ ('-' :: (token ++ ('/' :: (handlerName ++ rest))))) =
      some (userId, '-' :: (token ++ ('/' :: (handlerName ++ rest)))) :=
    splitRun_append isWordChar _ _ hu1' (List.all_eq_true.mp hu2) rfl
  have s5 : stripPre ['-'] ('-' :: (token ++ ('/' :: (handlerName ++ rest)))) =
      some (token ++ ('/' :: (handlerName ++ rest))) :=
    stripPre_append ['-'] (token ++ ('/' :: (handlerName ++ rest)))
  have s6 : splitRun isWordChar (token ++ ('/' :: (handlerName ++ rest))) =
      some (token, '/' :: (handlerName ++ rest)) :=
    splitRun_append isWordChar _ _ ht1' (List.all_eq_true.mp ht2) rfl
  have s7 : stripPre ['/'] ('/' :: (handlerName ++ rest)) = some (handlerName ++ rest) :=
    stripPre_append ['/'] (handlerName ++ rest)
  have s8 : splitRun isHandlerNameChar (handlerName ++ rest) = some (handlerName, rest) :=
    splitRun_append isHandlerNameChar _ _ hh1' (List.all_eq_true.mp hh2) hrest
  rw [h0]
  simp only [matchHandlerUrlAt, s1, s2, s3, s4, s5, s6, s7, s8]

theorem matchHandlerUrlAt_length_lt (lmsRoot cs b hn r : List Char)
    (hm : matchHandlerUrlAt lmsRoot cs = some (b, hn, r)) : r.length < cs.length := by
  simp only [matchHandlerUrlAt] at hm
  split at hm
  · cases hm
  · rename_i cs₁ h1
    split at hm
    · cases hm
    · rename_i blockId cs₂ h2
      split at hm
      · cases hm
      · rename_i cs₃ h3
        split at hm
        · cases hm
        · rename_i userId cs₄ h4
          split at hm
          · cases hm
          · rename_i cs₅ h5
            split at hm
            · cases hm
            · rename_i token cs₆ h6
              split at hm
              · cases hm
              · rename_i cs₇ h7
                split at hm
                · cases hm
                · rename_i handlerName cs₈ h8
                  cases hm
                  have l1 := stripPre_length_le _ _ _ h1
                  have l2 := splitRun_length_lt _ _ _ _ h2
                  have l3 := stripPre_length_le _ _ _ h3
                  have l4 := splitRun_length_le _ _ _ _ h4
                  have l5 := stripPre_length_le _ _ _ h5
                  have l6 := splitRun_length_le _ _ _ _ h6
                  have l7 := stripPre_length_le _ _ _ h7
                  have l8 := splitRun_length_le _ _ _ _ h8
                  omega

theorem handlerUrlStep_shrinking (lmsRoot : List Char)
    (secure_url : String → String → String) :
    ShrinkingStep (handlerUrlStep lmsRoot secure_url) := by
  intro cs rep rest h
  unfold handlerUrlStep at h
  cases hm : matchHandlerUrlAt lmsRoot cs with
  | none => rw [hm] at h; cases h
  | some m =>
    rw [hm] at h
    obtain ⟨b, hn, r⟩ := m
    simp only [Option.map_some'] at h
    cases h
    exact matchHandlerUrlAt_length_lt lmsRoot cs _ _ _ hm

theorem reSubScan_assembleLegacy (lmsRoot : List Char)
    (secure_url : String → String → String) :
    ∀ (chunks : List (List Char × List Char × List Char × List Char × List Char))
      (tail : List Char) (fuel : Nat),
      goodHandlerDecompB lmsRoot chunks tail = true →
      (assembleLegacy lmsRoot chunks tail).length ≤ fuel →
      reSubScan (handlerUrlStep lmsRoot secure_url) fuel
        (assembleLegacy lmsRoot chunks tail) = assembleSecured secure_url chunks tail := by
  intro chunks
  induction chunks with
  | nil =>
    intro tail fuel hgood _
    simp only [assembleLegacy, assembleSecured]
    apply reSubScan_no_match_suffix
    intro c₁ c₂ hsplit hne
    have hnm := noMatchWithinB_spec _ tail [] hgood c₁ c₂ hsplit hne
    rw [List.append_nil] at hnm
    simp [handlerUrlStep, hnm]
  | cons chunk more ih =>
    obtain ⟨gap, blockId, userId, token, handlerName⟩ := chunk
    intro tail fuel hgood hfuel
    simp only [goodHandlerDecompB, Bool.and_eq_true] at hgood
    obtain ⟨⟨⟨hgap, hwf⟩, hhead⟩, hmore⟩ := hgood
    simp only [assembleLegacy] at hfuel ⊢
    have hnm : ∀ a₁ a₂ : List Char, gap = a₁ ++ a₂ → a₂ ≠ [] →
        handlerUrlStep lmsRoot secure_url
          (a₂ ++ (legacyUrl lmsRoot blockId userId token handlerName ++
            assembleLegacy lmsRoot more tail)) = none := by
      intro a₁ a₂ hsplit hne
      have := noMatchWithinB_spec _ gap _ hgap a₁ a₂ hsplit hne
      simp [handlerUrlStep, this]
    rw [reSubScan_append_no_match _ (handlerUrlStep_shrinking lmsRoot secure_url)
      gap _ fuel hfuel hnm]
    have hmatch : handlerUrlStep lmsRoot secure_url
        (legacyUrl lmsRoot blockId userId token handlerName ++
          assembleLegacy lmsRoot more tail) =
        some ((secure_url blockId.asString handlerName.asString).toList,
          assembleLegacy lmsRoot more tail) := by
      unfold handlerUrlStep
      rw [matchHandlerUrlAt_legacy lmsRoot blockId userId token handlerName _ hwf hhead]
      rfl
    rw [reSubScan_match _ (handlerUrlStep_shrinking lmsRoot secure_url)
      _ _ _ _ hmatch (le_refl _)]
    rw [ih tail _ hmore (le_refl _)]
    simp [assembleSecured]

/-- Claim C2 as amended: (1) the pattern matches every complete legacy
handler URL — for all roots and all groups drawn from the pattern's
character classes, with no word-or-hyphen character following the handler
name — extracting exactly its `block_id` and `handler_name`; (2) for
every input that decomposes into gaps and complete legacy handler URLs,
with the pattern matching nowhere inside the gaps or the tail, the
substitution replaces exactly the URLs with the secure handler URL for
the same block id and handler name, leaves every gap unchanged, and the
function then returns that result unless the prefix still occurs in it,
in which case the trailing assert fails and `AssertionError` is raised;
(3) whenever the function returns, the returned HTML never contains the
`{LMS_ROOT_PUBLIC}/api/xblock/v2/xblocks/` substring. -/
theorem rewrite_handler_urls_amended :
    (∀ (lmsRoot blockId userId token handlerName rest : List Char),
      wellFormedLegacyPartsB blockId userId token handlerName = true →
      headNotB isHandlerNameChar rest = true →
      matchHandlerUrlAt lmsRoot
        (legacyUrl lmsRoot blockId userId token handlerName ++ rest) =
        some (blockId, handlerName, rest)) ∧
    (∀ (lmsRoot : String) (secure_url : String → String → String)
        (chunks : List (List Char × List Char × List Char × List Char × List Char))
        (tail : List Char),
      goodHandlerDecompB lmsRoot.toList chunks tail = true →
      rewrite_blockstore_runtime_handler_urls lmsRoot secure_url
          ⟨assembleLegacy lmsRoot.toList chunks tail⟩ =
        (if strHasInfix (lmsRoot ++ "/api/xblock/v2/xblocks/")
            ⟨assembleSecured secure_url chunks tail⟩ then .error .mk
         else .ok ⟨assembleSecured secure_url chunks tail⟩)) ∧
    (∀ (lmsRoot : String) (secure_url : String → String → String) (html out : String),
      rewrite_blockstore_runtime_handler_urls lmsRoot secure_url html = .ok out →
      strHasInfix (lmsRoot ++ "/api/xblock/v2/xblocks/") out = false) := by
  refine ⟨matchHandlerUrlAt_legacy, ?_, ?_⟩
  · intro lmsRoot secure_url chunks tail hgood
    simp only [rewrite_blockstore_runtime_handler_urls, reSub]
    rw [show (String.mk (assembleLegacy lmsRoot.toList chunks tail)).toList =
      assembleLegacy lmsRoot.toList chunks tail from rfl]
    rw [reSubScan_assembleLegacy lmsRoot.toList secure_url chunks tail _ hgood (le_refl _)]
  · intro lmsRoot secure_url html out h
    simp only [rewrite_blockstore_runtime_handler_urls] at h
    split at h
    · cases h
    case isFalse hc =>
      cases h
      exact Bool.not_eq_true _ |>.mp hc

/-- Witness for `rewrite_handler_urls_amended`: a one-URL decomposition
of the repository's first test vector — the gap and tail pass through
unchanged, the URL is replaced, and the function returns. -/
theorem rewrite_handler_urls_amended_witness :
    rewrite_blockstore_runtime_handler_urls "http://lms"
      (fun b h => "https://absolute/url/to/secure/handler/" ++ b ++ "/" ++ h)
      ⟨assembleLegacy "http://lms".toList
        [("<a href=\"".toList, "lb:LX:dnd:6-3".toList, "8".toList,
          "7b9057ed0a4f3383496f".toList, "publish_event".toList)]
        "\">FB</a>".toList⟩ =
      .ok ⟨assembleSecured
        (fun b h => "https://absolute/url/to/secure/handler/" ++ b ++ "/" ++ h)
        [("<a href=\"".toList, "lb:LX:dnd:6-3".toList, "8".toList,
          "7b9057ed0a4f3383496f".toList, "publish_event".toList)]
        "\">FB</a>".toList⟩ ∧
    (⟨assembleLegacy "http://lms".toList
        [("<a href=\"".toList, "lb:LX:dnd:6-3".toList, "8".toList,
          "7b9057ed0a4f3383496f".toList, "publish_event".toList)]
        "\">FB</a>".toList⟩ : String) =
      "<a href=\"http://lms/api/xblock/v2/xblocks/lb:LX:dnd:6-3/handler/8-7b9057ed0a4f3383496f/publish_event\">FB</a>" ∧
    (⟨assembleSecured
        (fun b h => "https://absolute/url/to/secure/handler/" ++ b ++ "/" ++ h)
        [("<a href=\"".toList, "lb:LX:dnd:6-3".toList, "8".toList,
          "7b9057ed0a4f3383496f".toList, "publish_event".toList)]
        "\">FB</a>".toList⟩ : String) =
      "<a href=\"https://absolute/url/to/secure/handler/lb:LX:dnd:6-3/publish_event\">FB</a>" := by
  refine ⟨?_, by rfl, by rfl⟩
  have h := rewrite_handler_urls_amended.2.1 "http://lms"
    (fun b h => "https://absolute/url/to/secure/handler/" ++ b ++ "/" ++ h)
    [("<a href=\"".toList, "lb:LX:dnd:6-3".toList, "8".toList,
      "7b9057ed0a4f3383496f".toList, "publish_event".toList)]
    "\">FB</a>".toList (by rfl)
  rw [h]
  rfl

theorem matchQuote_cons_quote (q : Char) (hq : q = dquoteChar ∨ q = squoteChar)
    (c : Char) (t : List Char) :
    matchQuote (q :: c :: t) = some ([q], c :: t) := by
  rcases hq with rfl | rfl
  · simp only [matchQuote]
    rw [if_neg (fun hcon => absurd hcon.1 (by decide))]
    simp
  · simp only [matchQuote]
    rw [if_neg (fun hcon => absurd hcon.1 (by decide))]
    simp

theorem findRest_closing_follow (q : Char) (rest follow : List Char)
    (h : ∀ c ∈ rest, c ≠ q ∧ c ≠ newlineChar) :
    findRest [q] (rest ++ (q :: follow)) = some (rest, follow) := by
  induction rest with
  | nil =>
    simp only [List.nil_append, findRest]
    rw [if_pos (by simp [List.isPrefixOf])]
    rfl
  | cons c t ih =>
    have hc := h c (by simp)
    have ht : ∀ x ∈ t, x ≠ q ∧ x ≠ newlineChar := fun x hx => h x (by simp [hx])
    simp only [List.cons_append, findRest]
    rw [if_neg, if_neg hc.2, List.append_eq, ih ht]
    · rfl
    · simp [List.isPrefixOf, Ne.symm hc.1]

theorem tryStaticTail_chunk (pg : List Char) (q : Char) (rest follow : List Char)
    (hrest : ∀ c ∈ rest, c ≠ q ∧ c ≠ newlineChar)
    (hnone : ("None".toList).isPrefixOf (rest ++ (q :: follow)) = false) :
    tryStaticTail pg [q] (pg ++ (rest ++ (q :: follow))) = some (pg, rest, follow) := by
  simp only [tryStaticTail, stripPre_append]
  rw [if_neg (by rw [hnone]; exact Bool.false_ne_true),
    findRest_closing_follow q rest follow hrest]
  rfl

theorem matchStaticAt_chunk (staticUrl : List Char) (q : Char) (pg rest follow : List Char)
    (hok : staticChunkOkB staticUrl q pg rest follow = true) :
    matchStaticAt staticUrl (q :: (pg ++ (rest ++ (q :: follow)))) =
      some ([q], pg, rest, follow) := by
  simp only [staticChunkOkB, Bool.and_eq_true, Bool.or_eq_true, decide_eq_true_eq,
    Bool.not_eq_true', Bool.and_eq_true] at hok
  obtain ⟨⟨⟨hq, hrest⟩, hnone⟩, hbranch⟩ := hok
  have hrest' : ∀ c ∈ rest, c ≠ q ∧ c ≠ newlineChar := by
    intro c hc
    have := List.all_eq_true.mp hrest c hc
    simp at this
    exact this
  have hmq : matchQuote (q :: (pg ++ (rest ++ (q :: follow)))) =
      some ([q], pg ++ (rest ++ (q :: follow))) := by
    cases hct : pg ++ (rest ++ (q :: follow)) with
    | nil => exact absurd hct (by simp)
    | cons c t =>
      exact matchQuote_cons_quote q hq c t
  rcases hbranch with hpg | ⟨hpg, hb1⟩
  · subst hpg
    have ht := tryStaticTail_chunk pg q rest follow hrest' hnone
    simp only [matchStaticAt, hmq, ht]
  · subst hpg
    have hb1' : tryStaticTail staticUrl [q]
        (staticSlashLit ++ (rest ++ (q :: follow))) = none :=
      Option.isNone_iff_eq_none.mp hb1
    have ht := tryStaticTail_chunk staticSlashLit q rest follow hrest' hnone
    simp only [matchStaticAt, hmq, hb1', ht]

/-- The `(?!None)` artifact, universally: a quoted `/static/` path whose
remainder starts with the four characters `None` never matches, whatever
follows it in the document. -/
theorem matchStaticAt_nonePath (q : Char) (hq : q = dquoteChar ∨ q = squoteChar)
    (x : List Char) (hx : ("None".toList).isPrefixOf x = true) :
    matchStaticAt staticSlashLit (q :: (staticSlashLit ++ x)) = none := by
  have hmq : matchQuote (q :: (staticSlashLit ++ x)) =
      some ([q], staticSlashLit ++ x) :=
    matchQuote_cons_quote q hq '/' (['s', 't', 'a', 't', 'i', 'c', '/'] ++ x)
  have hts : tryStaticTail staticSlashLit [q] (staticSlashLit ++ x) = none := by
    simp only [tryStaticTail, stripPre_append]
    rw [if_pos hx]
  simp only [matchStaticAt, hmq, hts]

theorem staticStep_shrinking (staticUrl : String)
    (rf : String → String → String → String → String) :
    ShrinkingStep (staticStep staticUrl rf) := by
  intro cs rep rest h
  unfold staticStep at h
  cases hm : matchStaticAt staticUrl.toList cs with
  | none => rw [hm] at h; cases h
  | some m =>
    rw [hm] at h
    obtain ⟨a, b, c, d⟩ := m
    simp only [Option.map_some'] at h
    cases h
    exact matchStaticAt_shrinking staticUrl.toList cs _ _ _ _ hm

theorem reSubScan_assembleStatic (staticUrl : String) (lookup : String → Option String) :
    ∀ (chunks : List (List Char × Char × List Char × List Char))
      (tail : List Char) (fuel : Nat),
      goodStaticDecompB staticUrl.toList chunks tail = true →
      (assembleStatic chunks tail).length ≤ fuel →
      reSubScan (staticStep staticUrl (replace_static_url lookup)) fuel
        (assembleStatic chunks tail) =
        assembleStaticRewritten lookup chunks tail := by
  intro chunks
  induction chunks with
  | nil =>
    intro tail fuel hgood _
    simp only [assembleStatic, assembleStaticRewritten]
    apply reSubScan_no_match_suffix
    intro c₁ c₂ hsplit hne
    have hnm := noMatchWithinB_spec _ tail [] hgood c₁ c₂ hsplit hne
    rw [List.append_nil] at hnm
    simp only [staticStep]
    rw [hnm]
    rfl
  | cons chunk more ih =>
    obtain ⟨gap, q, pg, rest⟩ := chunk
    intro tail fuel hgood hfuel
    simp only [goodStaticDecompB, Bool.and_eq_true] at hgood
    obtain ⟨⟨hgap, hchunk⟩, hmore⟩ := hgood
    simp only [assembleStatic] at hfuel ⊢
    have hnm : ∀ a₁ a₂ : List Char, gap = a₁ ++ a₂ → a₂ ≠ [] →
        staticStep staticUrl (replace_static_url lookup)
          (a₂ ++ (q :: (pg ++ (rest ++ (q :: assembleStatic more tail))))) = none := by
      intro a₁ a₂ hsplit hne
      have := noMatchWithinB_spec _ gap _ hgap a₁ a₂ hsplit hne
      simp only [staticStep]
      rw [this]
      rfl
    rw [reSubScan_append_no_match _
      (staticStep_shrinking staticUrl (replace_static_url lookup)) gap _ fuel hfuel hnm]
    have hmatch : staticStep staticUrl (replace_static_url lookup)
        (q :: (pg ++ (rest ++ (q :: assembleStatic more tail)))) =
        some ((replace_static_url lookup
            ([q] ++ pg ++ rest ++ [q]).asString pg.asString [q].asString
            rest.asString).toList, assembleStatic more tail) := by
      unfold staticStep
      rw [matchStaticAt_chunk staticUrl.toList q pg rest _ hchunk]
      rfl
    rw [reSubScan_match _ (staticStep_shrinking staticUrl (replace_static_url lookup))
      _ _ _ _ hmatch (le_refl _)]
    rw [ih tail _ hmore (le_refl _)]
    simp [assembleStaticRewritten]

/-- Claim C7 as amended: (1) for every `STATIC_URL`, every lookup function
and every input that decomposes into gaps and quoted static paths — the
pattern matching nowhere inside the gaps or the tail, each chunk quoted
by a double or single quote, its rest group free of its own quote and of
newlines, passing the `(?!None)` lookahead, and its prefix group being the
`STATIC_URL` alternative or the `/static/` fallback — the substitution
replaces exactly the quoted paths by `replace_static_url`'s output (the
looked-up URL in quotes; the original quoted path when the rest ends in
`?raw`, when the lookup fails or when it returns the empty string) and
leaves every gap unchanged; (2) the `(?!None)` artifact, universally: a
quoted `/static/` path whose remainder starts with `None` never matches,
whatever follows it in the document; (3) text containing no quote
characters is never modified. -/
theorem transform_static_paths_amended :
    (∀ (staticUrl : String) (lookup : String → Option String)
        (chunks : List (List Char × Char × List Char × List Char))
        (tail : List Char),
      goodStaticDecompB staticUrl.toList chunks tail = true →
      transform_static_paths_to_urls staticUrl lookup ⟨assembleStatic chunks tail⟩ =
        ⟨assembleStaticRewritten lookup chunks tail⟩) ∧
    (∀ (q : Char), q = dquoteChar ∨ q = squoteChar →
      ∀ (x : List Char), ("None".toList).isPrefixOf x = true →
      matchStaticAt staticSlashLit (q :: (staticSlashLit ++ x)) = none) ∧
    (∀ (staticUrl : String) (lookup : String → Option String) (html : String),
      (∀ c ∈ html.toList, c ≠ squoteChar ∧ c ≠ dquoteChar) →
      transform_static_paths_to_urls staticUrl lookup html = html) := by
  refine ⟨?_, matchStaticAt_nonePath, transform_no_quotes⟩
  intro staticUrl lookup chunks tail hgood
  show (⟨reSubScan (staticStep staticUrl (replace_static_url lookup))
      (assembleStatic chunks tail).length (assembleStatic chunks tail)⟩ : String) =
    ⟨assembleStaticRewritten lookup chunks tail⟩
  rw [reSubScan_assembleStatic staticUrl lookup chunks tail _ hgood (le_refl _)]

/-- Witness for `transform_static_paths_amended`: a document with two
quoted static paths — `/static/a.png` in double quotes, matched through
the `/static/` fallback alternative and rewritten to the looked-up CDN
URL, and `/assets/b.css?raw` matched through the `STATIC_URL` alternative
and left unchanged because of `?raw` — around plain HTML gaps; plus the
`None` lookahead and no-quotes conjuncts at concrete inputs. -/
theorem transform_static_paths_amended_witness :
    transform_static_paths_to_urls "/assets/"
        (fun p => if p = "a.png" then some "https://cdn/a.png" else none)
        ⟨assembleStatic
          [("<p><img src=".toList, dquoteChar, staticSlashLit, "a.png".toList),
           ("> and <a href=".toList, dquoteChar, "/assets/".toList, "b.css?raw".toList)]
          (">x</a></p>".toList)⟩ =
      ⟨assembleStaticRewritten
        (fun p => if p = "a.png" then some "https://cdn/a.png" else none)
        [("<p><img src=".toList, dquoteChar, staticSlashLit, "a.png".toList),
         ("> and <a href=".toList, dquoteChar, "/assets/".toList, "b.css?raw".toList)]
        (">x</a></p>".toList)⟩ ∧
    (⟨assembleStatic
        [("<p><img src=".toList, dquoteChar, staticSlashLit, "a.png".toList),
         ("> and <a href=".toList, dquoteChar, "/assets/".toList, "b.css?raw".toList)]
        (">x</a></p>".toList)⟩ : String) =
      "<p><img src=\"/static/a.png\"> and <a href=\"/assets/b.css?raw\">x</a></p>" ∧
    (⟨assembleStaticRewritten
        (fun p => if p = "a.png" then some "https://cdn/a.png" else none)
        [("<p><img src=".toList, dquoteChar, staticSlashLit, "a.png".toList),
         ("> and <a href=".toList, dquoteChar, "/assets/".toList, "b.css?raw".toList)]
        (">x</a></p>".toList)⟩ : String) =
      "<p><img src=\"https://cdn/a.png\"> and <a href=\"/assets/b.css?raw\">x</a></p>" ∧
    matchStaticAt staticSlashLit
      (dquoteChar :: (staticSlashLit ++ "None.png".toList)) = none ∧
    transform_static_paths_to_urls "/static/" (fun _ => some "u") "abc" = "abc" := by
  refine ⟨transform_static_paths_amended.1 "/assets/" _ _ _ (by rfl), by rfl, by rfl,
    transform_static_paths_amended.2.1 dquoteChar (Or.inl rfl) ("None.png".toList) (by rfl),
    transform_static_paths_amended.2.2 "/static/" (fun _ => some "u") "abc" (by decide)⟩
